import Mathlib

/-!
Verification development for the `xinject` context-resolution engine
(`src/xinject/context.py` and `src/xinject/dependency.py`).

The Python code is a hierarchical, type-keyed registry of dependency objects.
We shallowly embed the object graph as a `World`: a finite association list
from context ids to context records, together with the process-wide globals
(the app-root context id, the thread-local `_current_context_contextvar`
cell for the single thread under consideration, the id counters).

Python objects are identified by `Nat` ids:

* `Ty`    stands for a Python class used as a dependency key
  (the keys of `XContext._dependencies`);
* `Val`   stands for a dependency instance; instances freshly constructed by
  the engine (`for_type()`) receive the world's `nextIdent` counter value, so
  distinct constructions yield distinct instances;
* `CtxId` stands for an `XContext` object reference.

Mutation of a Python object becomes functional update of the association
list; aliasing (parent / sibling / children references) is by id, exactly as
Python references are by object identity.

Recursive methods (`XContext.dependency` walking the parent chain,
`XContext._remove_cached_dependency_and_in_children` walking the children
graph, `XContext.add` following sibling links) are embedded with an explicit
fuel parameter; exhausting the fuel yields the distinguished error
`Err.fuel`, which corresponds to non-termination in Python (only possible on
cyclic graphs that the library never builds).  All Python exceptions
(`XInjectError`, `AssertionError`, `AttributeError`, `KeyError`/`IndexError`)
are embedded as the remaining `Err` values.
-/

namespace Xinject

/-- A Python class object used as a type key in `XContext._dependencies`. -/
abbrev Ty := Nat

/-- A dependency instance (identified by object identity). -/
abbrev Val := Nat

/-- An `XContext` object reference. -/
abbrev CtxId := Nat

/-- The `_dependency__meta` information of a type, as consulted by
`is_dependency_thread_sharable` (src/xinject/dependency.py, lines 162-164).

`hasMeta = true` models a strict subclass of `Dependency`, on which
`__init_subclass__` has installed a meta dict; `sharable` is the value of the
optional key `thread_sharable` in that dict.  `hasMeta = false` models a type
whose `_dependency__meta` attribute is missing (any non-`Dependency` type,
e.g. `int`) or is `None` (the `Dependency` base class itself): in both cases
`dependency._dependency__meta.get(...)` raises `AttributeError`. -/
structure TyInfo where
  hasMeta : Bool
  sharable : Option Bool
deriving Repr, DecidableEq

/-- The value of the private `_parent` field of an `XContext`:
`Default` (resolve dynamically), `None`, the internal `_TreatAsRootParent`
sentinel, or an explicit `XContext` reference. -/
inductive PSpec where
  | default
  | root
  | none
  | ctx (c : CtxId)
deriving Repr, DecidableEq

/-- The mutable state of one `XContext` object.

Fields mirror `XContext.__init__` and the class-level attribute defaults
(src/xinject/context.py, lines 661-699 and 1329-1393):
`deps` is `_dependencies`, `cache` is `_cached_parent_dependencies`,
`parent` is `_parent`, `originallyNone` is
`_originally_passed_none_for_parent`, `children` is `_children` (a Python
set, modelled as a duplicate-free list), `sibling` is `_sibling`,
`isActive` is `_is_active`, `isAppRoot` is `_is_root_context_for_app`,
`isThreadRoot` is `_is_root_context_for_thread`, `isRootLike` is
`_is_root_like_context`, and `tokenStack` is `_reset_token_stack` with the
top of the stack at the head of the list (Python appends and pops at the
same end).  A reset token of `contextvars` restores the previous value of
the context variable, so a token is modelled by that previous value, an
`Option CtxId`.  The `_cached_context_chain` field only memoizes
`parent_chain`, which no claim touches, and is not modelled. -/
structure Ctx where
  deps : List (Ty × Val)
  cache : List (Ty × Val)
  parent : PSpec
  originallyNone : Bool
  children : List CtxId
  sibling : Option CtxId
  isActive : Bool
  isAppRoot : Bool
  isThreadRoot : Bool
  isRootLike : Bool
  tokenStack : List (Option CtxId)
deriving Repr, DecidableEq

/-- The process-wide state: every live `XContext` object keyed by id, the id
and instance counters, the `_current_context_contextvar` cell of the single
thread under consideration, the `_app_root_context` global, and the
`_dependency__meta` table of all types. -/
structure World where
  ctxs : List (CtxId × Ctx)
  nextId : CtxId
  nextIdent : Nat
  current : Option CtxId
  appRoot : CtxId
  tys : List (Ty × TyInfo)
deriving Repr, DecidableEq

/-- Python exceptions and fuel exhaustion.

`fuel` marks exhausted fuel (Python would recurse further);
`attr` is `AttributeError`; `inject` is `XInjectError`;
`assertFail` is `AssertionError` (or an impossible dangling reference);
`keyError` is `KeyError` / `IndexError`. -/
inductive Err where
  | fuel
  | attr
  | inject
  | assertFail
  | keyError
deriving Repr, DecidableEq

/-- Dictionary lookup (`dict.get(k)`), on an association list. -/
def lookupA {α : Type} : List (Nat × α) → Nat → Option α
  | [], _ => Option.none
  | (k0, v0) :: rest, k => if k0 = k then some v0 else lookupA rest k

/-- Dictionary store (`d[k] = v`): replaces an existing binding or appends. -/
def insertA {α : Type} : List (Nat × α) → Nat → α → List (Nat × α)
  | [], k, v => [(k, v)]
  | (k0, v0) :: rest, k, v =>
    if k0 = k then (k, v) :: rest else (k0, v0) :: insertA rest k v

/-- Dictionary removal with default (`d.pop(k, None)`). -/
def removeA {α : Type} : List (Nat × α) → Nat → List (Nat × α)
  | [], _ => []
  | (k0, v0) :: rest, k =>
    if k0 = k then removeA rest k else (k0, v0) :: removeA rest k

/-- Python `set.add` on the modelled children set. -/
def addChild (l : List CtxId) (c : CtxId) : List CtxId :=
  if c ∈ l then l else l ++ [c]

/-- Object lookup by reference. -/
def getCtx (w : World) (c : CtxId) : Option Ctx := lookupA w.ctxs c

/-- Overwrite the state of object `c`. -/
def setCtx (w : World) (c : CtxId) (d : Ctx) : World :=
  { w with ctxs := insertA w.ctxs c d }

/-- Mutate the state of object `c` in place (no-op on a dangling id, which
cannot arise from a Python reference). -/
def updCtx (w : World) (c : CtxId) (g : Ctx → Ctx) : World :=
  match getCtx w c with
  | Option.none => w
  | some d => setCtx w c (g d)

/-- The `_dependency__meta` information of type `t`; a type absent from the
table has no meta dict (a non-`Dependency` type). -/
def tyInfoOf (w : World) (t : Ty) : TyInfo :=
  (lookupA w.tys t).getD ⟨false, Option.none⟩

/-- `is_dependency_thread_sharable` (src/xinject/dependency.py, lines
162-164): `dependency._dependency__meta.get('thread_sharable', True)`.
Raises `AttributeError` when the type carries no meta dict (attribute
missing, or `None` on the `Dependency` base class itself). -/
def isDependencyThreadSharable (w : World) (t : Ty) : Except Err Bool :=
  let info := tyInfoOf w t
  if info.hasMeta then Except.ok (info.sharable.getD true) else Except.error Err.attr

/-- A fresh, inactive `XContext` as built by `XContext.__init__`
(src/xinject/context.py, lines 661-686) with no initial dependencies.
`__init__` only accepts `Default`, `None` or `_TreatAsRootParent` for
`parent` (an explicit context raises), so the model is only instantiated
with those three. -/
def mkCtx (p : PSpec) : Ctx :=
  { deps := []
    cache := []
    parent := p
    originallyNone := p = PSpec.none
    children := []
    sibling := Option.none
    isActive := false
    isAppRoot := false
    isThreadRoot := false
    isRootLike := p = PSpec.root
    tokenStack := [] }

/-- Allocate a new `XContext` object (returns its reference). -/
def newCtx (w : World) (p : PSpec) : CtxId × World :=
  (w.nextId,
    { w with
      ctxs := insertA w.ctxs w.nextId (mkCtx p)
      nextId := w.nextId + 1 })

/-- `XContext._make_current_and_get_reset_token` (src/xinject/context.py,
lines 416-480).  Returns `Option.none` in place of the token exactly when
`is_app_root_context` is set (the Python method returns `None` then, before
touching the children set or the context variable); otherwise returns
`some token` where the token records the previous value of
`_current_context_contextvar`. -/
def makeCurrentAndGetResetToken (w : World) (c : CtxId)
    (isThreadRootFlag : Bool) (isAppRootFlag : Bool) :
    Except Err (Option (Option CtxId) × World) :=
  match getCtx w c with
  | Option.none => Except.error Err.assertFail
  | some cx =>
    -- `assert self._parent is Default` under is_thread_root_context
    if isThreadRootFlag ∧ cx.parent ≠ PSpec.default then Except.error Err.assertFail
    -- `assert self._parent is _TreatAsRootParent` under is_app_root_context
    else if isAppRootFlag ∧ cx.parent ≠ PSpec.root then Except.error Err.assertFail
    else
      let cx1 := { cx with
        isThreadRoot := cx.isThreadRoot || isThreadRootFlag
        isAppRoot := cx.isAppRoot || isAppRootFlag }
      -- resolve a Default parent to the current context, falling back to the
      -- app root; turn the _TreatAsRootParent sentinel into None
      let cx2 :=
        match cx1.parent with
        | PSpec.default =>
          match w.current with
          | some p => { cx1 with parent := PSpec.ctx p }
          | Option.none => { cx1 with parent := PSpec.ctx w.appRoot }
        | PSpec.root => { cx1 with parent := PSpec.none, originallyNone := false }
        | _ => cx1
      let cx3 := { cx2 with isActive := true }
      let w1 := setCtx w c cx3
      if isAppRootFlag then Except.ok (Option.none, w1)
      else
        -- `if my_parent and not my_parent._is_root_context_for_app:
        --      my_parent._children.add(self)`
        let w2 :=
          match cx3.parent with
          | PSpec.ctx p =>
            match getCtx w1 p with
            | some pcx =>
              if pcx.isAppRoot then w1
              else updCtx w1 p (fun d => { d with children := addChild d.children c })
            | Option.none => w1
          | _ => w1
        Except.ok (some w.current, { w2 with current := some c })

/-- `XContext.grab` (src/xinject/context.py, lines 384-398): return the
current context, lazily creating and activating the thread-root context
(a fresh `XContext` with a `Default` parent) when the context variable is
still unset on this thread. -/
def grab (w : World) : Except Err (CtxId × World) :=
  match w.current with
  | some c => Except.ok (c, w)
  | Option.none =>
    let cw := newCtx w PSpec.default
    match makeCurrentAndGetResetToken cw.2 cw.1 true false with
    | Except.error e => Except.error e
    | Except.ok (_, w2) => Except.ok (cw.1, w2)

/-- The `XContext.parent` property (src/xinject/context.py, lines 482-535).

While active, the `_parent` field is `None` or an explicit context
(anything else raises `XInjectError`; the `Default` sentinel is falsy, so
it reaches the raise).  While inactive, a `Default` parent resolves
dynamically to `XContext.grab()`, `None` and `_TreatAsRootParent` resolve
to `None`, and an explicit parent raises `XInjectError`.  The property
never returns the `Default` sentinel itself, which is why the
`if parent is Default` branch inside `XContext.dependency` (lines 914-932)
is unreachable and is not reproduced in `dependencyFuel` below. -/
def parentProp (w : World) (c : CtxId) : Except Err (Option CtxId × World) :=
  match getCtx w c with
  | Option.none => Except.error Err.assertFail
  | some cx =>
    if cx.isActive then
      match cx.parent with
      | PSpec.none => Except.ok (Option.none, w)
      | PSpec.ctx p => Except.ok (some p, w)
      | _ => Except.error Err.inject
    else
      match cx.parent with
      | PSpec.default =>
        match grab w with
        | Except.error e => Except.error e
        | Except.ok (p, w1) => Except.ok (some p, w1)
      | PSpec.none => Except.ok (Option.none, w)
      | PSpec.root => Except.ok (Option.none, w)
      | PSpec.ctx _ => Except.error Err.inject

/-- `XContext.dependency` (src/xinject/context.py, lines 782-953), with
explicit fuel for the parent-chain recursion.

Order of business, as in the source: local `_dependencies` hit, then
`_cached_parent_dependencies` hit, then the app-root thread-sharability
gate (return `None` for a non-sharable type), then parent resolution via
the `parent` property and the recursive query, then — only when `create`
is true — lazy zero-argument construction and storage in `_dependencies`
when the parent produced nothing, or memoization of the parent's value in
`_cached_parent_dependencies`.  Construction `for_type()` is modelled as
drawing the fresh instance `nextIdent`. -/
def dependencyFuel : Nat → World → CtxId → Ty → Bool → Except Err (Option Val × World)
  | 0, _, _, _, _ => Except.error Err.fuel
  | Nat.succ f, w, c, t, create =>
    match getCtx w c with
    | Option.none => Except.error Err.assertFail
    | some cx =>
      match lookupA cx.deps t with
      | some v => Except.ok (some v, w)
      | Option.none =>
        match lookupA cx.cache t with
        | some v => Except.ok (some v, w)
        | Option.none =>
          let gate : Except Err Bool :=
            if cx.isAppRoot then
              match isDependencyThreadSharable w t with
              | Except.error e => Except.error e
              | Except.ok b => Except.ok (!b)
            else Except.ok false
          match gate with
          | Except.error e => Except.error e
          | Except.ok true => Except.ok (Option.none, w)
          | Except.ok false =>
            match parentProp w c with
            | Except.error e => Except.error e
            | Except.ok (pOpt, w1) =>
              match pOpt with
              | Option.none =>
                if create then
                  let v := w1.nextIdent
                  let w2 := { w1 with nextIdent := w1.nextIdent + 1 }
                  Except.ok (some v, updCtx w2 c (fun d => { d with deps := insertA d.deps t v }))
                else Except.ok (Option.none, w1)
              | some p =>
                match dependencyFuel f w1 p t create with
                | Except.error e => Except.error e
                | Except.ok (pv, w2) =>
                  if create then
                    match pv with
                    | Option.none =>
                      let v := w2.nextIdent
                      let w3 := { w2 with nextIdent := w2.nextIdent + 1 }
                      Except.ok (some v, updCtx w3 c (fun d => { d with deps := insertA d.deps t v }))
                    | some v =>
                      Except.ok (some v, updCtx w2 c (fun d => { d with cache := insertA d.cache t v }))
                  else Except.ok (pv, w2)

/-- The parent-resolution-and-query step of `XContext.dependency`
(src/xinject/context.py, lines 902-935): resolve the parent via the
`parent` property and, when there is one, query it recursively; the result
is the `parent_value` local variable of the source.  `dependencyFuel` at
fuel `f + 1` performs exactly this step at fuel `f` after its two store
lookups and the app-root gate. -/
def parentFetch (f : Nat) (w : World) (c : CtxId) (t : Ty) (create : Bool) :
    Except Err (Option Val × World) :=
  match parentProp w c with
  | Except.error e => Except.error e
  | Except.ok (pOpt, w1) =>
    match pOpt with
    | Option.none => Except.ok (Option.none, w1)
    | some p => dependencyFuel f w1 p t create

/-- `XContext._remove_cached_dependency_and_in_children`
(src/xinject/context.py, lines 1324-1327), as a fuelled walk over a work
list: pop `t` from the context's own `_cached_parent_dependencies`, recurse
into each member of its `_children` set, then continue with the rest of the
work list.  The walk of context `c` is `removeCachedWalk f w [c] t`. -/
def removeCachedWalk : Nat → World → List CtxId → Ty → Except Err World
  | 0, _, _, _ => Except.error Err.fuel
  | Nat.succ _, w, [], _ => Except.ok w
  | Nat.succ f, w, c :: rest, t =>
    let w1 := updCtx w c (fun d => { d with cache := removeA d.cache t })
    match removeCachedWalk f w1
        (match getCtx w1 c with | some d => d.children | Option.none => []) t with
    | Except.error e => Except.error e
    | Except.ok w2 => removeCachedWalk f w2 rest t

/-- `XContext.add` (src/xinject/context.py, lines 703-780) with the
`for_type` argument given explicitly (the source defaults it to
`type(dependency)`): store the instance in `_dependencies` — silently
replacing any existing binding, the method has no failure path — then
forward the same `add` to the sibling when one is set, then invalidate the
type's cached value in self and recursively in all children. -/
def addFuel : Nat → World → CtxId → Val → Ty → Except Err World
  | 0, _, _, _, _ => Except.error Err.fuel
  | Nat.succ f, w, c, v, t =>
    match getCtx w c with
    | Option.none => Except.error Err.assertFail
    | some cx =>
      let w1 := updCtx w c (fun d => { d with deps := insertA d.deps t v })
      let afterSibling : Except Err World :=
        match cx.sibling with
        | Option.none => Except.ok w1
        | some s => addFuel f w1 s v t
      match afterSibling with
      | Except.error e => Except.error e
      | Except.ok w2 => removeCachedWalk f w2 [c] t

/-- `XContext.__copy__` (src/xinject/context.py, lines 985-1023): build a
fresh context whose parent spec is `_TreatAsRootParent` when the original
carries it, `None` when the original was created with an explicit `None`
parent, and `Default` otherwise; give it a shallow copy of the original's
`_dependencies`; caches, children, sibling, activation state and token
stack start fresh. -/
def copyCtx (w : World) (c : CtxId) : CtxId × World :=
  match getCtx w c with
  | Option.none => newCtx w PSpec.default
  | some cx =>
    let p : PSpec :=
      if cx.parent = PSpec.root then PSpec.root
      else if cx.originallyNone then PSpec.none
      else PSpec.default
    let nw := newCtx w p
    (nw.1, updCtx nw.2 nw.1 (fun d => { d with deps := cx.deps }))

/-- `XContext.__enter__` (src/xinject/context.py, lines 1062-1093): when the
context is already active, activate a shallow copy instead and link
`copy._sibling = original`; otherwise activate the context itself.  The
reset token is pushed onto the ORIGINAL context's `_reset_token_stack`
(`self._reset_token_stack.append(token)`), even when the copy is the one
activated.  A non-app-root activation always yields a token, so the
token-less branch is unreachable. -/
def enterCtx (w : World) (c : CtxId) : Except Err (CtxId × World) :=
  match getCtx w c with
  | Option.none => Except.error Err.assertFail
  | some cx =>
    let nw : CtxId × World :=
      if cx.isActive then
        let cpw := copyCtx w c
        (cpw.1, updCtx cpw.2 cpw.1 (fun d => { d with sibling := some c }))
      else (c, w)
    match makeCurrentAndGetResetToken nw.2 nw.1 false false with
    | Except.error e => Except.error e
    | Except.ok (Option.none, _) => Except.error Err.assertFail
    | Except.ok (some tok, w2) =>
      Except.ok (nw.1, updCtx w2 c (fun d => { d with tokenStack := tok :: d.tokenStack }))

/-- `XContext.__exit__` (src/xinject/context.py, lines 1095-1136): pop the
reset token from self's stack (an empty stack is Python's `IndexError`);
the current context must be self, or a sibling copy of self, and is the one
deactivated; its own token stack must be empty; the context variable is
reset to the token; the deactivated context is marked inactive and its
caches cleared; if it has a parent, it is removed from the parent's
children set (`set.remove`, raising `KeyError` when absent) and its parent
field reverts to `Default`; finally its own children set must be empty. -/
def exitCtx (w : World) (c : CtxId) : Except Err World :=
  match getCtx w c with
  | Option.none => Except.error Err.assertFail
  | some cx =>
    match cx.tokenStack with
    | [] => Except.error Err.keyError
    | tok :: rest =>
      let w1 := setCtx w c { cx with tokenStack := rest }
      match grab w1 with
      | Except.error e => Except.error e
      | Except.ok (cur, w2) =>
        match getCtx w2 cur with
        | Option.none => Except.error Err.assertFail
        | some curcx =>
          let toDeact : Except Err CtxId :=
            match curcx.sibling with
            | some s => if s = c then Except.ok cur else Except.error Err.assertFail
            | Option.none => if cur = c then Except.ok c else Except.error Err.assertFail
          match toDeact with
          | Except.error e => Except.error e
          | Except.ok d =>
            match getCtx w2 d with
            | Option.none => Except.error Err.assertFail
            | some dcx =>
              if dcx.tokenStack ≠ [] then Except.error Err.assertFail
              else
                let w3 := { w2 with current := tok }
                let w4 := setCtx w3 d { dcx with isActive := false, cache := [] }
                match dcx.parent with
                | PSpec.ctx p =>
                  match getCtx w4 p with
                  | Option.none => Except.error Err.assertFail
                  | some pcx =>
                    if d ∈ pcx.children then
                      let w5 := setCtx w4 p { pcx with children := pcx.children.erase d }
                      let w6 := updCtx w5 d (fun e => { e with parent := PSpec.default })
                      match getCtx w6 d with
                      | Option.none => Except.error Err.assertFail
                      | some dcx2 =>
                        if dcx2.children = [] then Except.ok w6 else Except.error Err.assertFail
                    else Except.error Err.keyError
                | _ =>
                  if dcx.children = [] then Except.ok w4 else Except.error Err.assertFail

/-- The app-root `XContext` as left by
`_setup_blank_app_and_thread_root_contexts_globals`
(src/xinject/context.py, lines 1402-1436): created with
`parent=_TreatAsRootParent` and activated with `is_app_root_context=True`,
which turns the parent into `None`, clears `originallyNone`, marks it
active and app-root, and returns before registering children or touching
the context variable. -/
def appRootCtx : Ctx :=
  { deps := []
    cache := []
    parent := PSpec.none
    originallyNone := false
    children := []
    sibling := Option.none
    isActive := true
    isAppRoot := true
    isThreadRoot := false
    isRootLike := true
    tokenStack := [] }

/-- The world right after module import (the bootstrap in
`_setup_blank_app_and_thread_root_contexts_globals`): one app-root context
with id 0, no current context yet, and a given type table. -/
def initWorld (tys : List (Ty × TyInfo)) : World :=
  { ctxs := [(0, appRootCtx)]
    nextId := 1
    nextIdent := 0
    current := Option.none
    appRoot := 0
    tys := tys }

/-- One invocation of a function wrapped by a context used as a decorator
(`XContext.__call__`, src/xinject/context.py, lines 1173-1203): the wrapper
runs the body inside `with self`, and this particular body registers one
dependency on the current context (`XContext.grab().add(v, for_type=t)`),
which is the pattern the decorator documentation describes. -/
def invokeAddingDep (f : Nat) (w : World) (c : CtxId) (v : Val) (t : Ty) :
    Except Err World :=
  match enterCtx w c with
  | Except.error e => Except.error e
  | Except.ok (_, w1) =>
    match grab w1 with
    | Except.error e => Except.error e
    | Except.ok (cur, w2) =>
      match addFuel f w2 cur v t with
      | Except.error e => Except.error e
      | Except.ok w3 => exitCtx w3 c

/-- Local dependency store of context `c`, as a lookup. -/
def depsLookup (w : World) (c : CtxId) (t : Ty) : Option Val :=
  match getCtx w c with
  | some cx => lookupA cx.deps t
  | Option.none => Option.none

/-- Parent cache of context `c`, as a lookup. -/
def cacheLookup (w : World) (c : CtxId) (t : Ty) : Option Val :=
  match getCtx w c with
  | some cx => lookupA cx.cache t
  | Option.none => Option.none

/-- `_children` of context `c` (empty for a dangling reference). -/
def childrenOf (w : World) (c : CtxId) : List CtxId :=
  match getCtx w c with
  | some cx => cx.children
  | Option.none => []

/-- `_reset_token_stack` of context `c` (empty for a dangling reference). -/
def tokenStackOf (w : World) (c : CtxId) : List (Option CtxId) :=
  match getCtx w c with
  | some cx => cx.tokenStack
  | Option.none => []

/-- `_is_active` of context `c`. -/
def isActiveOf (w : World) (c : CtxId) : Bool :=
  match getCtx w c with
  | some cx => cx.isActive
  | Option.none => false

/-! ### Concrete scenario worlds used by counterexamples and witnesses -/

/-- A small type table: type 1 is a `Dependency` subclass with default
sharability, type 2 is a `Dependency` subclass declared
`thread_sharable=False` (like `DependencyPerThread`), and every other
type id (0, 3, ...) is a plain type with no `_dependency__meta`
(like `int`). -/
def bootTys : List (Ty × TyInfo) :=
  [(1, { hasMeta := true, sharable := Option.none }),
   (2, { hasMeta := true, sharable := some false })]

/-- The world after module import and a first `XContext.grab()` on the
main thread: context 0 is the app-root, context 1 the thread-root
(active, parent app-root, current). -/
def bootWorld : World :=
  match grab (initWorld bootTys) with
  | Except.ok pw => pw.2
  | Except.error _ => initWorld bootTys

/-- The thread-root context inside `bootWorld` (id 1). -/
def threadRootCtx : Ctx :=
  { deps := []
    cache := []
    parent := PSpec.ctx 0
    originallyNone := false
    children := []
    sibling := Option.none
    isActive := true
    isAppRoot := false
    isThreadRoot := true
    isRootLike := false
    tokenStack := [] }

/-- `R = XContext(parent=None); R.add(42, for_type=int)` on the bootstrap
world (before any `grab`): the example scenario of the spec, with the
`int` key modelled as type 0 and the instance `42`.  `R` has id 1. -/
def exampleWorld : World :=
  match addFuel 5 (newCtx (initWorld bootTys) PSpec.none).2 1 42 0 with
  | Except.ok w => w
  | Except.error _ => initWorld bootTys

/-- The world after entering the seeded root `R` (id 1) of
`exampleWorld`. -/
def enteredExampleWorld : World :=
  match enterCtx exampleWorld 1 with
  | Except.ok pw => pw.2
  | Except.error _ => exampleWorld

/-- A decorator template context (id 2, `Default` parent) allocated on top
of `bootWorld`, as `my_context = XContext()` before decorating. -/
def templateWorld : World := (newCtx bootWorld PSpec.default).2

/-- The world after entering the decorator template context (id 2) of
`templateWorld`. -/
def enteredTemplateWorld : World :=
  match enterCtx templateWorld 2 with
  | Except.ok pw => pw.2
  | Except.error _ => templateWorld

/-- The world after the matching exit of the template context. -/
def exitedTemplateWorld : World :=
  match exitCtx enteredTemplateWorld 2 with
  | Except.ok w => w
  | Except.error _ => enteredTemplateWorld

/-- The world after re-entering the already active template context (id 2)
of `enteredTemplateWorld`: a fresh shallow copy (id 3) is activated with a
sibling link back to the original. -/
def reenteredWorld : World :=
  match enterCtx enteredTemplateWorld 2 with
  | Except.ok pw => pw.2
  | Except.error _ => enteredTemplateWorld

/-- The re-entered world after `add`ing instance 5 for type 4 on the inner
copy (id 3); the binding is forwarded to the original (id 2) through the
sibling link. -/
def reenterAddWorld : World :=
  match addFuel 5 reenteredWorld 3 5 4 with
  | Except.ok w => w
  | Except.error _ => reenteredWorld

/-- The re-entrant scenario after the inner scope's matching exit: the
copy (id 3) is deactivated and the original (id 2) is current again. -/
def reenterExitWorld : World :=
  match exitCtx reenterAddWorld 2 with
  | Except.ok w => w
  | Except.error _ => reenterAddWorld

/-- The world after the first invocation of a function wrapped with the
template context of `templateWorld`, where the body added instance 7 for
type 3 on the current context. -/
def afterFirstInvocation : World :=
  match invokeAddingDep 9 templateWorld 2 7 3 with
  | Except.ok w => w
  | Except.error _ => templateWorld

/-- The world at the start of the second invocation of the same wrapped
function: the template context (id 2) of `afterFirstInvocation` is entered
again. -/
def secondInvocationWorld : World :=
  match enterCtx afterFirstInvocation 2 with
  | Except.ok pw => pw.2
  | Except.error _ => afterFirstInvocation

/-- A two-node chain for the cache-invalidation scenario: context 10 is an
active root `R` holding instance 100 for type 6 with child 11; context 11
(`C2`) is active with resolved parent `R` and has `R`'s value for type 6 in
its parent cache. -/
def chainWorld : World :=
  { ctxs :=
      [(0, appRootCtx),
       (10,
        { deps := [(6, 100)]
          cache := []
          parent := PSpec.none
          originallyNone := true
          children := [11]
          sibling := Option.none
          isActive := true
          isAppRoot := false
          isThreadRoot := false
          isRootLike := false
          tokenStack := [] }),
       (11,
        { deps := []
          cache := [(6, 100)]
          parent := PSpec.ctx 10
          originallyNone := false
          children := []
          sibling := Option.none
          isActive := true
          isAppRoot := false
          isThreadRoot := false
          isRootLike := false
          tokenStack := [] })]
    nextId := 12
    nextIdent := 0
    current := some 11
    appRoot := 0
    tys := bootTys }

/-- The `C2` node (id 11) of `chainWorld`: empty local store, `R`'s value
for type 6 cached, resolved parent `R` (id 10). -/
def chainC2Ctx : Ctx :=
  { deps := []
    cache := [(6, 100)]
    parent := PSpec.ctx 10
    originallyNone := false
    children := []
    sibling := Option.none
    isActive := true
    isAppRoot := false
    isThreadRoot := false
    isRootLike := false
    tokenStack := [] }

/-- The chain world after `R` (id 10) lazily constructed an instance of the
fresh type 7 while answering a parent query. -/
def chainWorldAfterParentCreate : World :=
  match parentFetch 3 chainWorld 11 7 true with
  | Except.ok pw => pw.2
  | Except.error _ => chainWorld

/-- A context (id 1) holding instance 1 for type 5, on the bootstrap world:
the duplicate-registration scenario. -/
def dupWorld : World :=
  match addFuel 5 (newCtx (initWorld bootTys) PSpec.none).2 1 1 5 with
  | Except.ok w => w
  | Except.error _ => initWorld bootTys

/-- The duplicate-registration world after adding a second instance (2) for
the already-mapped type 5 on the same context. -/
def dupWorldAfter : World :=
  match addFuel 5 dupWorld 1 2 5 with
  | Except.ok w => w
  | Except.error _ => dupWorld

/-- The chain world after `R.add(200, for_type=6)` replaced `R`'s instance
of type 6 and invalidated the caches below. -/
def chainWorldAfterAdd : World :=
  match addFuel 9 chainWorld 10 200 6 with
  | Except.ok w => w
  | Except.error _ => chainWorld

/-- The `C2` node (id 11) of `chainWorldAfterAdd`: its stale cache entry
for type 6 is gone. -/
def chainC2ClearedCtx : Ctx :=
  { deps := []
    cache := []
    parent := PSpec.ctx 10
    originallyNone := false
    children := []
    sibling := Option.none
    isActive := true
    isAppRoot := false
    isThreadRoot := false
    isRootLike := false
    tokenStack := [] }

/-- The `R` node (id 10) of `chainWorldAfterAdd`: type 6 now maps to the
new instance 200. -/
def chainRAfterCtx : Ctx :=
  { deps := [(6, 200)]
    cache := []
    parent := PSpec.none
    originallyNone := true
    children := [11]
    sibling := Option.none
    isActive := true
    isAppRoot := false
    isThreadRoot := false
    isRootLike := false
    tokenStack := [] }

/-- No context lives at or above the `nextId` counter: the freshness
invariant of object allocation, true of every world reachable from the
bootstrap. -/
def IdsBounded (w : World) : Prop :=
  ∀ j, w.nextId ≤ j → getCtx w j = Option.none

/-- Reachability along `_children` edges, as walked by
`_remove_cached_dependency_and_in_children`. -/
inductive ReachC (w : World) : CtxId → CtxId → Prop
  | refl (c : CtxId) : ReachC w c c
  | step {c d e : CtxId} : ReachC w c d → e ∈ childrenOf w d → ReachC w c e

/-! ### Association-list and world-update lemmas -/

theorem lookupA_insertA_self {α : Type} (l : List (Nat × α)) (k : Nat) (v : α) :
    lookupA (insertA l k v) k = some v := by
  induction l with
  | nil => simp [insertA, lookupA]
  | cons hd tl ih =>
    by_cases h : hd.1 = k
    · simp [insertA, h, lookupA]
    · simp [insertA, h, lookupA, ih]

theorem lookupA_insertA_ne {α : Type} (l : List (Nat × α)) (k k2 : Nat) (v : α)
    (h : k ≠ k2) : lookupA (insertA l k v) k2 = lookupA l k2 := by
  induction l with
  | nil => simp [insertA, lookupA, h]
  | cons hd tl ih =>
    by_cases h2 : hd.1 = k
    · simp [insertA, h2, lookupA, h]
    · simp [insertA, h2, lookupA, ih]

theorem lookupA_removeA_self {α : Type} (l : List (Nat × α)) (k : Nat) :
    lookupA (removeA l k) k = Option.none := by
  induction l with
  | nil => simp [removeA, lookupA]
  | cons hd tl ih =>
    by_cases h : hd.1 = k
    · simp [removeA, h, ih]
    · simp [removeA, h, lookupA, ih]

theorem lookupA_removeA_ne {α : Type} (l : List (Nat × α)) (k k2 : Nat)
    (h : k ≠ k2) : lookupA (removeA l k) k2 = lookupA l k2 := by
  induction l with
  | nil => simp [removeA, lookupA]
  | cons hd tl ih =>
    by_cases h2 : hd.1 = k
    · have : hd.1 ≠ k2 := by simpa [h2] using h
      simp [removeA, h2, lookupA, ih, this, h]
    · simp [removeA, h2, lookupA, ih]

theorem removeA_idem {α : Type} (l : List (Nat × α)) (k : Nat) :
    removeA (removeA l k) k = removeA l k := by
  induction l with
  | nil => simp [removeA]
  | cons hd tl ih =>
    by_cases h : hd.1 = k
    · simp [removeA, h, ih]
    · simp [removeA, h, ih]

theorem getCtx_setCtx_self (w : World) (c : CtxId) (d : Ctx) :
    getCtx (setCtx w c d) c = some d := by
  simp [getCtx, setCtx, lookupA_insertA_self]

theorem getCtx_setCtx_ne (w : World) (c c2 : CtxId) (d : Ctx) (h : c ≠ c2) :
    getCtx (setCtx w c d) c2 = getCtx w c2 := by
  simp [getCtx, setCtx, lookupA_insertA_ne _ _ _ _ h]

theorem getCtx_updCtx_self (w : World) (c : CtxId) (g : Ctx → Ctx) :
    getCtx (updCtx w c g) c = (getCtx w c).map g := by
  unfold updCtx
  cases h : getCtx w c with
  | none => simp [h]
  | some cx => simp [getCtx_setCtx_self]

theorem getCtx_updCtx_ne (w : World) (c c2 : CtxId) (g : Ctx → Ctx) (h : c ≠ c2) :
    getCtx (updCtx w c g) c2 = getCtx w c2 := by
  unfold updCtx
  cases h2 : getCtx w c with
  | none => rfl
  | some cx => simp [getCtx_setCtx_ne _ _ _ _ h]

theorem updCtx_nextId (w : World) (c : CtxId) (g : Ctx → Ctx) :
    (updCtx w c g).nextId = w.nextId := by
  unfold updCtx
  cases getCtx w c <;> rfl

theorem updCtx_current (w : World) (c : CtxId) (g : Ctx → Ctx) :
    (updCtx w c g).current = w.current := by
  unfold updCtx
  cases getCtx w c <;> rfl

theorem updCtx_nextIdent (w : World) (c : CtxId) (g : Ctx → Ctx) :
    (updCtx w c g).nextIdent = w.nextIdent := by
  unfold updCtx
  cases getCtx w c <;> rfl

/-! ### Small facts about `dependencyFuel` -/

/-- When the type is in `_dependencies`, `dependency` returns the stored
instance at once and leaves the world untouched. -/
theorem dependencyFuel_local_hit (f : Nat) (w : World) (c : CtxId) (t : Ty)
    (create : Bool) (cx : Ctx) (v : Val)
    (hc : getCtx w c = some cx) (hv : lookupA cx.deps t = some v) :
    dependencyFuel (f + 1) w c t create = Except.ok (some v, w) := by
  simp [dependencyFuel, hc, hv]

/-- C3 gate as a reusable lemma: on the app-root context, a type whose meta
dict marks it not thread-sharable is answered with `None` and no state
change, provided both stores miss. -/
theorem dependencyFuel_gate (f : Nat) (w : World) (c : CtxId) (t : Ty)
    (create : Bool) (cx : Ctx)
    (hc : getCtx w c = some cx)
    (hroot : cx.isAppRoot = true)
    (hmeta : (tyInfoOf w t).hasMeta = true)
    (hsh : (tyInfoOf w t).sharable = some false)
    (hd : lookupA cx.deps t = Option.none)
    (hch : lookupA cx.cache t = Option.none) :
    dependencyFuel (f + 1) w c t create = Except.ok (Option.none, w) := by
  simp [dependencyFuel, hc, hd, hch, hroot, isDependencyThreadSharable, hmeta, hsh]

/-- The app-root thread-sharability gate does not fire when the context is
not the app-root, or when the type's meta dict marks it thread-sharable
(including by the `True` default). -/
theorem dependencyFuel_gate_off (w : World) (t : Ty) (cx : Ctx)
    (hGate : cx.isAppRoot = false ∨
      ((tyInfoOf w t).hasMeta = true ∧ (tyInfoOf w t).sharable.getD true = true)) :
    (if cx.isAppRoot = true then
       match isDependencyThreadSharable w t with
       | Except.error e => Except.error e
       | Except.ok b => Except.ok (!b)
     else Except.ok false) = Except.ok false := by
  rcases hGate with h | ⟨h1, h2⟩
  · simp [h]
  · by_cases hb : cx.isAppRoot = true
    · simp [hb, isDependencyThreadSharable, h1, h2]
    · simp [hb]

/-- Parent step, creation case: an active context with an explicit parent,
missing in both stores and passing the gate; when the recursive parent
query yields no value and `create` is set, a fresh instance is constructed
and stored in the local `_dependencies` of the requesting context. -/
theorem dependencyFuel_parent_none (f : Nat) (w : World) (c p : CtxId) (t : Ty)
    (cx : Ctx) (w2 : World)
    (hc : getCtx w c = some cx)
    (hd : lookupA cx.deps t = Option.none)
    (hch : lookupA cx.cache t = Option.none)
    (hGate : cx.isAppRoot = false ∨
      ((tyInfoOf w t).hasMeta = true ∧ (tyInfoOf w t).sharable.getD true = true))
    (hact : cx.isActive = true)
    (hpar : cx.parent = PSpec.ctx p)
    (hrec : dependencyFuel f w p t true = Except.ok (Option.none, w2)) :
    dependencyFuel (f + 1) w c t true =
      Except.ok (some w2.nextIdent,
        updCtx { w2 with nextIdent := w2.nextIdent + 1 } c
          (fun d => { d with deps := insertA d.deps t w2.nextIdent })) := by
  have hg := dependencyFuel_gate_off w t cx hGate
  simp [dependencyFuel, hc, hd, hch, hg, parentProp, hact, hpar, hrec]

/-- Parent step, borrow case: when the recursive parent query yields a
value and `create` is set, that value is memoized in the requesting
context's `_cached_parent_dependencies` (never its `_dependencies`) and
returned. -/
theorem dependencyFuel_parent_some (f : Nat) (w : World) (c p : CtxId) (t : Ty)
    (cx : Ctx) (v : Val) (w2 : World)
    (hc : getCtx w c = some cx)
    (hd : lookupA cx.deps t = Option.none)
    (hch : lookupA cx.cache t = Option.none)
    (hGate : cx.isAppRoot = false ∨
      ((tyInfoOf w t).hasMeta = true ∧ (tyInfoOf w t).sharable.getD true = true))
    (hact : cx.isActive = true)
    (hpar : cx.parent = PSpec.ctx p)
    (hrec : dependencyFuel f w p t true = Except.ok (some v, w2)) :
    dependencyFuel (f + 1) w c t true =
      Except.ok (some v,
        updCtx w2 c (fun d => { d with cache := insertA d.cache t v })) := by
  have hg := dependencyFuel_gate_off w t cx hGate
  simp [dependencyFuel, hc, hd, hch, hg, parentProp, hact, hpar, hrec]

/-- Parent step, error case: an error raised while querying the parent
chain propagates unchanged. -/
theorem dependencyFuel_parent_error (f : Nat) (w : World) (c p : CtxId) (t : Ty)
    (cx : Ctx) (e : Err) (create : Bool)
    (hc : getCtx w c = some cx)
    (hd : lookupA cx.deps t = Option.none)
    (hch : lookupA cx.cache t = Option.none)
    (hGate : cx.isAppRoot = false ∨
      ((tyInfoOf w t).hasMeta = true ∧ (tyInfoOf w t).sharable.getD true = true))
    (hact : cx.isActive = true)
    (hpar : cx.parent = PSpec.ctx p)
    (hrec : dependencyFuel f w p t create = Except.error e) :
    dependencyFuel (f + 1) w c t create = Except.error e := by
  have hg := dependencyFuel_gate_off w t cx hGate
  simp [dependencyFuel, hc, hd, hch, hg, parentProp, hact, hpar, hrec]

/-- No-parent step, creation case: an active context with parent `None`
(or one created with an explicit `None` parent), missing in both stores
and passing the gate, constructs a fresh instance, stores it in its own
`_dependencies` and returns it. -/
theorem dependencyFuel_no_parent (f : Nat) (w : World) (c : CtxId) (t : Ty)
    (cx : Ctx)
    (hc : getCtx w c = some cx)
    (hd : lookupA cx.deps t = Option.none)
    (hch : lookupA cx.cache t = Option.none)
    (hGate : cx.isAppRoot = false ∨
      ((tyInfoOf w t).hasMeta = true ∧ (tyInfoOf w t).sharable.getD true = true))
    (hact : cx.isActive = true)
    (hpar : cx.parent = PSpec.none) :
    dependencyFuel (f + 1) w c t true =
      Except.ok (some w.nextIdent,
        updCtx { w with nextIdent := w.nextIdent + 1 } c
          (fun d => { d with deps := insertA d.deps t w.nextIdent })) := by
  have hg := dependencyFuel_gate_off w t cx hGate
  simp [dependencyFuel, hc, hd, hch, hg, parentProp, hact, hpar]

/-- C3: for a type declared not thread-sharable, `dependency` on the
app-root context — with the type absent from the app-root's local store and
parent cache — returns `None` immediately, without creating an instance and
without storing anything at the app-root (the world is unchanged); hence a
thread-root (an active, non-app-root context whose resolved parent is the
app-root) that also misses locally creates the instance in its own local
store and keeps returning that same instance, while the app-root still
stores nothing. -/
theorem C3_thread_sharability_gate
    (f : Nat) (w : World) (c c2 : CtxId) (t : Ty) (cx cx2 : Ctx) (create : Bool)
    (hc : getCtx w c = some cx)
    (hroot : cx.isAppRoot = true)
    (hmeta : (tyInfoOf w t).hasMeta = true)
    (hsh : (tyInfoOf w t).sharable = some false)
    (hd : lookupA cx.deps t = Option.none)
    (hch : lookupA cx.cache t = Option.none)
    (hc2 : getCtx w c2 = some cx2)
    (hact2 : cx2.isActive = true)
    (hnr2 : cx2.isAppRoot = false)
    (hpar2 : cx2.parent = PSpec.ctx c)
    (hd2 : lookupA cx2.deps t = Option.none)
    (hch2 : lookupA cx2.cache t = Option.none) :
    dependencyFuel (f + 1) w c t create = Except.ok (Option.none, w) ∧
    ∃ w2, dependencyFuel (f + 2) w c2 t true = Except.ok (some w.nextIdent, w2) ∧
      depsLookup w2 c2 t = some w.nextIdent ∧
      depsLookup w2 c t = Option.none ∧
      cacheLookup w2 c t = Option.none ∧
      dependencyFuel 1 w2 c2 t true = Except.ok (some w.nextIdent, w2) := by
  have hcc : c ≠ c2 := by
    intro h
    subst h
    rw [hc] at hc2
    cases hc2
    rw [hroot] at hnr2
    exact Bool.noConfusion hnr2
  have h1 : dependencyFuel (f + 1) w c t create = Except.ok (Option.none, w) :=
    dependencyFuel_gate f w c t create cx hc hroot hmeta hsh hd hch
  refine ⟨h1, ?_⟩
  have h1t : dependencyFuel (f + 1) w c t true = Except.ok (Option.none, w) :=
    dependencyFuel_gate f w c t true cx hc hroot hmeta hsh hd hch
  set wbump : World := { w with nextIdent := w.nextIdent + 1 } with hwbump
  set w2 : World :=
    updCtx wbump c2 (fun d => { d with deps := insertA d.deps t w.nextIdent }) with hw2
  have hgb : getCtx wbump c2 = some cx2 := hc2
  have hg2 : getCtx w2 c2 = some { cx2 with deps := insertA cx2.deps t w.nextIdent } := by
    rw [hw2, getCtx_updCtx_self, hgb]
    rfl
  have hg2c : getCtx w2 c = some cx := by
    rw [hw2, getCtx_updCtx_ne _ _ _ _ hcc.symm]
    exact hc
  have hstep : dependencyFuel (f + 2) w c2 t true = Except.ok (some w.nextIdent, w2) := by
    show dependencyFuel (f + 1 + 1) w c2 t true = Except.ok (some w.nextIdent, w2)
    rw [dependencyFuel_parent_none (f + 1) w c2 c t cx2 w hc2 hd2 hch2 (Or.inl hnr2) hact2 hpar2 h1t]
  refine ⟨w2, hstep, ?_, ?_, ?_, ?_⟩
  · simp [depsLookup, hg2, lookupA_insertA_self]
  · simp [depsLookup, hg2c, hd]
  · simp [cacheLookup, hg2c, hch]
  · exact dependencyFuel_local_hit 0 w2 c2 t true _ _ hg2 (lookupA_insertA_self _ _ _)

/-- Witness for C3 at the bootstrap world: the app-root (context 0) answers
`None` for the non-sharable type 2, and the thread-root (context 1) then
creates and keeps its own instance. -/
theorem C3_thread_sharability_gate_witness :
    dependencyFuel 4 bootWorld 0 2 true = Except.ok (Option.none, bootWorld) ∧
    ∃ w2, dependencyFuel 5 bootWorld 1 2 true = Except.ok (some bootWorld.nextIdent, w2) ∧
      depsLookup w2 1 2 = some bootWorld.nextIdent ∧
      depsLookup w2 0 2 = Option.none ∧
      cacheLookup w2 0 2 = Option.none ∧
      dependencyFuel 1 w2 1 2 true = Except.ok (some bootWorld.nextIdent, w2) :=
  C3_thread_sharability_gate 3 bootWorld 0 1 2 appRootCtx threadRootCtx true
    rfl rfl rfl rfl rfl rfl rfl rfl rfl rfl rfl rfl

/-- C10: a type that carries no `_dependency__meta` dict — any type that is
not a strict subclass of `Dependency`, including the base class itself and
built-ins like `int` — makes `is_dependency_thread_sharable` raise
`AttributeError` as soon as a lookup reaches the app-root context, both
when the app-root is queried directly and when the query arrives through
the parent chain from a context (e.g. the thread-root) whose resolved
parent is the app-root; no instance and no `None` result is produced. -/
theorem C10_missing_meta_raises_attribute_error
    (f : Nat) (w : World) (c c2 : CtxId) (t : Ty) (cx cx2 : Ctx) (create : Bool)
    (hc : getCtx w c = some cx)
    (hroot : cx.isAppRoot = true)
    (hmeta : (tyInfoOf w t).hasMeta = false)
    (hd : lookupA cx.deps t = Option.none)
    (hch : lookupA cx.cache t = Option.none)
    (hc2 : getCtx w c2 = some cx2)
    (hact2 : cx2.isActive = true)
    (hnr2 : cx2.isAppRoot = false)
    (hpar2 : cx2.parent = PSpec.ctx c)
    (hd2 : lookupA cx2.deps t = Option.none)
    (hch2 : lookupA cx2.cache t = Option.none) :
    dependencyFuel (f + 1) w c t create = Except.error Err.attr ∧
    dependencyFuel (f + 2) w c2 t create = Except.error Err.attr := by
  have h1 : dependencyFuel (f + 1) w c t create = Except.error Err.attr := by
    simp [dependencyFuel, hc, hd, hch, hroot, isDependencyThreadSharable, hmeta]
  exact ⟨h1, dependencyFuel_parent_error (f + 1) w c2 c t cx2 Err.attr create
    hc2 hd2 hch2 (Or.inl hnr2) hact2 hpar2 h1⟩

/-- Witness for C10 at the bootstrap world with the meta-less type 0
(a stand-in for `int`): the app-root query and the thread-root query both
raise `AttributeError`. -/
theorem C10_missing_meta_raises_attribute_error_witness :
    dependencyFuel 4 bootWorld 0 0 true = Except.error Err.attr ∧
    dependencyFuel 5 bootWorld 1 0 true = Except.error Err.attr :=
  C10_missing_meta_raises_attribute_error 3 bootWorld 0 1 0 appRootCtx threadRootCtx true
    rfl rfl rfl rfl rfl rfl rfl rfl rfl rfl rfl

/-- Counterexample to C1 as stated: at the bootstrap world the app-root
context (id 0) has an empty local store, an empty parent cache, and no
parent at all — so "the resolved (explicit, non-dynamic) parent chain
yields no value" — yet for the non-thread-sharable type 2 a
`dependency(create=True)` call returns `None`, constructs nothing and
stores nothing (the world is returned unchanged): the thread-sharability
gate pre-empts the construction step the claim promises for every
context. -/
theorem C1_counterexample :
    depsLookup (initWorld bootTys) 0 2 = Option.none ∧
    cacheLookup (initWorld bootTys) 0 2 = Option.none ∧
    getCtx (initWorld bootTys) 0 = some appRootCtx ∧
    appRootCtx.parent = PSpec.none ∧
    dependencyFuel 9 (initWorld bootTys) 0 2 true =
      Except.ok (Option.none, initWorld bootTys) :=
  ⟨rfl, rfl, rfl, rfl, rfl⟩

/-- C1 as amended: for every context whose local store and parent cache
miss the requested type, whose parent resolution is explicit and
non-dynamic (the context is active), and on which the app-root
thread-sharability gate does not fire (it is not the app-root, or the type
is thread-sharable): when the resolved parent chain yields no value,
`dependency(create=True)` constructs a fresh instance by zero-argument
construction, stores it in the context's own local store and returns it;
when the parent chain yields a value, that value is stored in the
context's parent cache — its local store is untouched — and returned. -/
theorem C1_create_after_parent_resolution
    (f : Nat) (w : World) (c : CtxId) (t : Ty)
    (cx cx2 : Ctx) (pv : Option Val) (w2 : World)
    (hc : getCtx w c = some cx)
    (hd : lookupA cx.deps t = Option.none)
    (hch : lookupA cx.cache t = Option.none)
    (hact : cx.isActive = true)
    (hGate : cx.isAppRoot = false ∨
      ((tyInfoOf w t).hasMeta = true ∧ (tyInfoOf w t).sharable.getD true = true))
    (hPF : parentFetch f w c t true = Except.ok (pv, w2))
    (hc2 : getCtx w2 c = some cx2) :
    (pv = Option.none →
      ∃ w3, dependencyFuel (f + 1) w c t true = Except.ok (some w2.nextIdent, w3) ∧
        depsLookup w3 c t = some w2.nextIdent ∧
        cacheLookup w3 c t = lookupA cx2.cache t) ∧
    (∀ v, pv = some v →
      ∃ w3, dependencyFuel (f + 1) w c t true = Except.ok (some v, w3) ∧
        cacheLookup w3 c t = some v ∧
        depsLookup w3 c t = lookupA cx2.deps t) := by
  unfold parentFetch at hPF
  cases hpp : cx.parent with
  | default =>
    rw [show parentProp w c = Except.error Err.inject by
      simp [parentProp, hc, hact, hpp]] at hPF
    exact absurd hPF (by simp)
  | root =>
    rw [show parentProp w c = Except.error Err.inject by
      simp [parentProp, hc, hact, hpp]] at hPF
    exact absurd hPF (by simp)
  | none =>
    rw [show parentProp w c = Except.ok (Option.none, w) by
      simp [parentProp, hc, hact, hpp]] at hPF
    simp only [Except.ok.injEq, Prod.mk.injEq] at hPF
    obtain ⟨hpv, hw⟩ := hPF
    subst hpv
    subst hw
    have hcx : cx2 = cx := by
      rw [hc] at hc2
      exact (Option.some.inj hc2).symm
    subst hcx
    have hc2b : getCtx { w with nextIdent := w.nextIdent + 1 } c = some cx2 := hc2
    constructor
    · intro _
      refine ⟨_, dependencyFuel_no_parent f w c t cx2 hc hd hch hGate hact hpp, ?_, ?_⟩
      · simp [depsLookup, getCtx_updCtx_self, hc2b, lookupA_insertA_self]
      · simp [cacheLookup, getCtx_updCtx_self, hc2b]
    · intro v hv
      exact absurd hv (by simp)
  | ctx p =>
    rw [show parentProp w c = Except.ok (some p, w) by
      simp [parentProp, hc, hact, hpp]] at hPF
    have hc2b : getCtx { w2 with nextIdent := w2.nextIdent + 1 } c = some cx2 := hc2
    constructor
    · intro hpv
      subst hpv
      refine ⟨_, dependencyFuel_parent_none f w c p t cx w2 hc hd hch hGate hact hpp hPF, ?_, ?_⟩
      · simp [depsLookup, getCtx_updCtx_self, hc2b, lookupA_insertA_self]
      · simp [cacheLookup, getCtx_updCtx_self, hc2b]
    · intro v hv
      subst hv
      refine ⟨_, dependencyFuel_parent_some f w c p t cx v w2 hc hd hch hGate hact hpp hPF, ?_, ?_⟩
      · simp [cacheLookup, getCtx_updCtx_self, hc2, lookupA_insertA_self]
      · simp [depsLookup, getCtx_updCtx_self, hc2]

/-- Witness for the amended C1 at the chain world, borrow case: context 11
is active with explicit parent 10; querying the fresh type 7 makes the
parent construct instance 0, which context 11 then stores in its parent
cache — not in its local store — and returns. -/
theorem C1_create_after_parent_resolution_witness :
    ∃ w3, dependencyFuel 4 chainWorld 11 7 true = Except.ok (some 0, w3) ∧
      cacheLookup w3 11 7 = some 0 ∧
      depsLookup w3 11 7 = lookupA chainC2Ctx.deps 7 :=
  (C1_create_after_parent_resolution 3 chainWorld 11 7 chainC2Ctx chainC2Ctx
    (some 0) chainWorldAfterParentCreate rfl rfl rfl rfl (Or.inl rfl) rfl rfl).2 0 rfl

/-! ### The shape of cache-invalidation walks -/

/-- Two worlds related by a cache-invalidation walk for type `t`: every
context is either untouched or has exactly `t` popped from its parent
cache.  All other fields — local store, children, sibling, parent,
activation state, token stack — are preserved. -/
def PopShape (t : Ty) (w w2 : World) : Prop :=
  ∀ d, getCtx w2 d = getCtx w d ∨
    ∃ cx, getCtx w d = some cx ∧
      getCtx w2 d = some { cx with cache := removeA cx.cache t }

/-- Every world is pop-shaped to itself. -/
theorem popShape_refl (t : Ty) (w : World) : PopShape t w w :=
  fun _ => Or.inl rfl

/-- Pop shapes compose (cache popping is idempotent). -/
theorem popShape_trans {t : Ty} {w w1 w2 : World}
    (h1 : PopShape t w w1) (h2 : PopShape t w1 w2) : PopShape t w w2 := by
  intro d
  rcases h2 d with h | ⟨cx1, hcx1, hcx1b⟩
  · rcases h1 d with g | ⟨cx, hcx, hcxb⟩
    · exact Or.inl (h.trans g)
    · exact Or.inr ⟨cx, hcx, h.trans hcxb⟩
  · rcases h1 d with g | ⟨cx, hcx, hcxb⟩
    · exact Or.inr ⟨cx1, g ▸ hcx1, hcx1b⟩
    · refine Or.inr ⟨cx, hcx, ?_⟩
      rw [hcxb] at hcx1
      cases Option.some.inj hcx1
      rw [hcx1b]
      simp [removeA_idem]

/-- Popping one context's cache is a pop shape. -/
theorem popShape_pop (t : Ty) (w : World) (c : CtxId) :
    PopShape t w (updCtx w c (fun d => { d with cache := removeA d.cache t })) := by
  intro d
  by_cases h : c = d
  · subst h
    cases hc : getCtx w c with
    | none => left; rw [getCtx_updCtx_self, hc]; rfl
    | some cx => right; exact ⟨cx, rfl, by rw [getCtx_updCtx_self, hc]; rfl⟩
  · left
    rw [getCtx_updCtx_ne _ _ _ _ h]

/-- Pop shapes preserve the local store of every context. -/
theorem PopShape.deps {t : Ty} {w w2 : World} (h : PopShape t w w2)
    (d : CtxId) (t2 : Ty) : depsLookup w2 d t2 = depsLookup w d t2 := by
  rcases h d with g | ⟨cx, hcx, hcxb⟩
  · simp [depsLookup, g]
  · simp [depsLookup, hcx, hcxb]

/-- Pop shapes preserve the children set of every context. -/
theorem PopShape.children {t : Ty} {w w2 : World} (h : PopShape t w w2)
    (d : CtxId) : childrenOf w2 d = childrenOf w d := by
  rcases h d with g | ⟨cx, hcx, hcxb⟩
  · simp [childrenOf, g]
  · simp [childrenOf, hcx, hcxb]

/-- Pop shapes can only erase `t` from caches: once a context's cache
misses `t`, it still misses after the walk. -/
theorem PopShape.cacheNone {t : Ty} {w w2 : World} (h : PopShape t w w2)
    (d : CtxId) (hn : cacheLookup w d t = Option.none) :
    cacheLookup w2 d t = Option.none := by
  rcases h d with g | ⟨cx, hcx, hcxb⟩
  · simp [cacheLookup, g]
    simpa [cacheLookup] using hn
  · simp [cacheLookup, hcxb, lookupA_removeA_self]

/-- Pop shapes leave cache entries for other types alone. -/
theorem PopShape.cacheOther {t : Ty} {w w2 : World} (h : PopShape t w w2)
    (d : CtxId) (t2 : Ty) (hne : t ≠ t2) :
    cacheLookup w2 d t2 = cacheLookup w d t2 := by
  rcases h d with g | ⟨cx, hcx, hcxb⟩
  · simp [cacheLookup, g]
  · simp [cacheLookup, hcx, hcxb, lookupA_removeA_ne _ _ _ hne]

/-- A successful `_remove_cached_dependency_and_in_children` walk is a pop
shape. -/
theorem removeCachedWalk_popShape (f : Nat) :
    ∀ (w : World) (l : List CtxId) (t : Ty) (w2 : World),
    removeCachedWalk f w l t = Except.ok w2 → PopShape t w w2 := by
  induction f with
  | zero => intro w l t w2 h; exact absurd h (by simp [removeCachedWalk])
  | succ f ih =>
    intro w l t w2 h
    match l with
    | [] =>
      simp [removeCachedWalk] at h
      subst h
      exact popShape_refl t w
    | c :: rest =>
      rw [removeCachedWalk] at h
      set w1 := updCtx w c (fun d => { d with cache := removeA d.cache t }) with hw1
      cases hmid : removeCachedWalk f w1
          (match getCtx w1 c with | some d => d.children | Option.none => []) t with
      | error e => rw [hmid] at h; exact absurd h (by simp)
      | ok wmid =>
        rw [hmid] at h
        simp only at h
        exact popShape_trans (popShape_trans (popShape_pop t w c)
          (ih w1 _ t wmid hmid)) (ih wmid rest t w2 h)

/-- Children sets agree everywhere between two worlds. -/
def SameKids (w w2 : World) : Prop := ∀ d, childrenOf w2 d = childrenOf w d

theorem sameKids_refl (w : World) : SameKids w w := fun _ => rfl

theorem sameKids_trans {w w1 w2 : World}
    (h1 : SameKids w w1) (h2 : SameKids w1 w2) : SameKids w w2 :=
  fun d => (h2 d).trans (h1 d)

/-- Between two worlds, every cache entry for `t` was either erased or left
as it was. -/
def CacheMono (t : Ty) (w w2 : World) : Prop :=
  ∀ d, cacheLookup w2 d t = Option.none ∨ cacheLookup w2 d t = cacheLookup w d t

theorem cacheMono_refl (t : Ty) (w : World) : CacheMono t w w :=
  fun _ => Or.inr rfl

theorem cacheMono_trans {t : Ty} {w w1 w2 : World}
    (h1 : CacheMono t w w1) (h2 : CacheMono t w1 w2) : CacheMono t w w2 := by
  intro d
  rcases h2 d with h | h
  · exact Or.inl h
  · rcases h1 d with g | g
    · exact Or.inl (h.trans g)
    · exact Or.inr (h.trans g)

/-- Between two worlds, every local-store entry for `t` was either set to
`v` or left as it was. -/
def DepsUpTo (v : Val) (t : Ty) (w w2 : World) : Prop :=
  ∀ d, depsLookup w2 d t = some v ∨ depsLookup w2 d t = depsLookup w d t

theorem depsUpTo_refl (v : Val) (t : Ty) (w : World) : DepsUpTo v t w w :=
  fun _ => Or.inr rfl

theorem depsUpTo_trans {v : Val} {t : Ty} {w w1 w2 : World}
    (h1 : DepsUpTo v t w w1) (h2 : DepsUpTo v t w1 w2) : DepsUpTo v t w w2 := by
  intro d
  rcases h2 d with h | h
  · exact Or.inl h
  · rcases h1 d with g | g
    · exact Or.inl (h.trans g)
    · exact Or.inr (h.trans g)

theorem PopShape.sameKids {t : Ty} {w w2 : World} (h : PopShape t w w2) :
    SameKids w w2 :=
  fun d => h.children d

theorem PopShape.cacheMono {t : Ty} {w w2 : World} (h : PopShape t w w2) :
    CacheMono t w w2 := by
  intro d
  rcases h d with g | ⟨cx, hcx, hcxb⟩
  · exact Or.inr (by simp [cacheLookup, g])
  · exact Or.inl (by simp [cacheLookup, hcxb, lookupA_removeA_self])

theorem PopShape.depsUpTo {t : Ty} {w w2 : World} (h : PopShape t w w2)
    (v : Val) : DepsUpTo v t w w2 :=
  fun d => Or.inr (h.deps d t)

/-- Storing a dependency at one context preserves children and caches, sets
the entry at that context, and changes no other local store. -/
theorem insert_dep_shape (w : World) (c : CtxId) (v : Val) (t : Ty) (cx : Ctx)
    (hc : getCtx w c = some cx) :
    SameKids w (updCtx w c (fun d => { d with deps := insertA d.deps t v })) ∧
    CacheMono t w (updCtx w c (fun d => { d with deps := insertA d.deps t v })) ∧
    depsLookup (updCtx w c (fun d => { d with deps := insertA d.deps t v })) c t = some v ∧
    DepsUpTo v t w (updCtx w c (fun d => { d with deps := insertA d.deps t v })) := by
  set w1 := updCtx w c (fun d => { d with deps := insertA d.deps t v }) with hw1
  have hget : ∀ d, d ≠ c → getCtx w1 d = getCtx w d := by
    intro d hd
    rw [hw1, getCtx_updCtx_ne _ _ _ _ (Ne.symm hd)]
  have hgetc : getCtx w1 c = some { cx with deps := insertA cx.deps t v } := by
    rw [hw1, getCtx_updCtx_self, hc]
    rfl
  refine ⟨?_, ?_, ?_, ?_⟩
  · intro d
    by_cases hd : d = c
    · subst hd
      simp [childrenOf, hgetc, hc]
    · simp [childrenOf, hget d hd]
  · intro d
    by_cases hd : d = c
    · subst hd
      exact Or.inr (by simp [cacheLookup, hgetc, hc])
    · exact Or.inr (by simp [cacheLookup, hget d hd])
  · simp [depsLookup, hgetc, lookupA_insertA_self]
  · intro d
    by_cases hd : d = c
    · subst hd
      exact Or.inl (by simp [depsLookup, hgetc, lookupA_insertA_self])
    · exact Or.inr (by simp [depsLookup, hget d hd])

/-- The combined effect of a successful `XContext.add` (including the
forwarding to siblings and the recursive cache invalidation): children
sets are untouched, cache entries for the added type are only ever erased,
the target context's local store now maps the type to the added instance,
and every other local-store entry for the type is either that instance
(a sibling) or unchanged. -/
theorem addFuel_shape (f : Nat) :
    ∀ (w : World) (c : CtxId) (v : Val) (t : Ty) (w2 : World),
    addFuel f w c v t = Except.ok w2 →
    SameKids w w2 ∧ CacheMono t w w2 ∧
    depsLookup w2 c t = some v ∧ DepsUpTo v t w w2 := by
  induction f with
  | zero => intro w c v t w2 h; exact absurd h (by simp [addFuel])
  | succ f ih =>
    intro w c v t w2 h
    rw [addFuel] at h
    cases hc : getCtx w c with
    | none => rw [hc] at h; exact absurd h (by simp)
    | some cx =>
      rw [hc] at h
      simp only at h
      set w1 := updCtx w c (fun d => { d with deps := insertA d.deps t v }) with hw1
      obtain ⟨hk1, hm1, hd1, hu1⟩ := insert_dep_shape w c v t cx hc
      cases hs : cx.sibling with
      | none =>
        rw [hs] at h
        simp only at h
        cases hrc : removeCachedWalk f w1 [c] t with
        | error e => rw [hrc] at h; exact absurd h (by simp)
        | ok wr =>
          rw [hrc] at h
          cases h
          have hps := removeCachedWalk_popShape f w1 [c] t _ hrc
          refine ⟨sameKids_trans hk1 hps.sameKids,
            cacheMono_trans hm1 hps.cacheMono, ?_,
            depsUpTo_trans hu1 (hps.depsUpTo v)⟩
          rw [hps.deps c t]
          exact hd1
      | some s =>
        rw [hs] at h
        simp only at h
        cases hsb : addFuel f w1 s v t with
        | error e => rw [hsb] at h; exact absurd h (by simp)
        | ok wmid =>
          rw [hsb] at h
          simp only at h
          cases hrc : removeCachedWalk f wmid [c] t with
          | error e => rw [hrc] at h; exact absurd h (by simp)
          | ok wr =>
            rw [hrc] at h
            cases h
            obtain ⟨hk2, hm2, _, hu2⟩ := ih w1 s v t wmid hsb
            have hps := removeCachedWalk_popShape f wmid [c] t _ hrc
            refine ⟨sameKids_trans hk1 (sameKids_trans hk2 hps.sameKids),
              cacheMono_trans hm1 (cacheMono_trans hm2 hps.cacheMono), ?_,
              depsUpTo_trans hu1 (depsUpTo_trans hu2 (hps.depsUpTo v))⟩
            rw [hps.deps c t]
            rcases hu2 c with h2 | h2
            · exact h2
            · rw [h2]
              exact hd1

/-- Counterexample to C2: on `dupWorld` the context (id 1) already maps
type 5 to instance 1, yet a second `add` of instance 2 for the same type
succeeds — no error of any kind is raised — and the mapping is silently
replaced by the new instance.  (`XContext.add` in src/xinject/context.py,
lines 773-780, has no failure path; the `DuplicateRegistrationError` of
its stale docstring was only ever raised by the oldest generation of the
code, `glazy.add_resource`.) -/
theorem C2_counterexample :
    depsLookup dupWorld 1 5 = some 1 ∧
    addFuel 5 dupWorld 1 2 5 = Except.ok dupWorldAfter ∧
    depsLookup dupWorldAfter 1 5 = some 2 :=
  ⟨rfl, rfl, rfl⟩

/-- C2 as amended: adding an instance for a type already mapped in the
context's local store succeeds and silently replaces the previous
instance — the local store afterwards maps the type to the newly added
instance; no duplicate-registration error exists in this generation of the
code. -/
theorem C2_add_silently_overwrites (f : Nat) (w : World) (c : CtxId) (t : Ty)
    (v0 v : Val) (w2 : World)
    (hOld : depsLookup w c t = some v0)
    (hAdd : addFuel f w c v t = Except.ok w2) :
    depsLookup w c t = some v0 ∧ depsLookup w2 c t = some v :=
  ⟨hOld, (addFuel_shape f w c v t w2 hAdd).2.2.1⟩

/-- Witness for the amended C2 at the duplicate-registration world. -/
theorem C2_add_silently_overwrites_witness :
    depsLookup dupWorld 1 5 = some 1 ∧ depsLookup dupWorldAfter 1 5 = some 2 :=
  C2_add_silently_overwrites 5 dupWorld 1 5 1 2 dupWorldAfter rfl rfl

/-! ### Reachability through children and cache invalidation (C4) -/

/-- Reachability is stable under any world change that preserves children
sets. -/
theorem ReachC_congr {w w2 : World} (hk : SameKids w w2) {a b : CtxId}
    (h : ReachC w a b) : ReachC w2 a b := by
  induction h with
  | refl => exact ReachC.refl _
  | step h1 h3 ih =>
    exact ReachC.step ih (by rw [hk _]; exact h3)

/-- A reachable context is the start itself or reachable from one of the
start's children. -/
theorem ReachC_head {w : World} {c e : CtxId} (h : ReachC w c e) :
    e = c ∨ ∃ c1, c1 ∈ childrenOf w c ∧ ReachC w c1 e := by
  induction h with
  | refl => exact Or.inl rfl
  | step h1 h3 ih =>
    rcases ih with rfl | ⟨c1, hc1, hr⟩
    · exact Or.inr ⟨_, h3, ReachC.refl _⟩
    · exact Or.inr ⟨c1, hc1, ReachC.step hr h3⟩

/-- A successful invalidation walk erases the cache entry for the walked
type in every context of the work list and everything reachable from them
through children. -/
theorem removeCachedWalk_clears (f : Nat) :
    ∀ (w : World) (l : List CtxId) (t : Ty) (w2 : World),
    removeCachedWalk f w l t = Except.ok w2 →
    ∀ c0, c0 ∈ l → ∀ d, ReachC w c0 d → cacheLookup w2 d t = Option.none := by
  induction f with
  | zero => intro w l t w2 h; exact absurd h (by simp [removeCachedWalk])
  | succ f ih =>
    intro w l t w2 h c0 hc0 d hreach
    match l with
    | [] => exact absurd hc0 (by simp)
    | c :: rest =>
      rw [removeCachedWalk] at h
      set w1 := updCtx w c (fun e => { e with cache := removeA e.cache t }) with hw1
      cases hmid : removeCachedWalk f w1
          (match getCtx w1 c with | some e => e.children | Option.none => []) t with
      | error e => rw [hmid] at h; exact absurd h (by simp)
      | ok wmid =>
        rw [hmid] at h
        simp only at h
        have hps1 : PopShape t w w1 := popShape_pop t w c
        have hpsm : PopShape t w1 wmid := removeCachedWalk_popShape f w1 _ t wmid hmid
        have hps2 : PopShape t wmid w2 := removeCachedWalk_popShape f wmid rest t w2 h
        rcases List.mem_cons.mp hc0 with hceq | hrest
        · rw [hceq] at hreach
          rcases ReachC_head hreach with hdeq | ⟨c1, hc1, hr⟩
          · rw [hdeq]
            have h1 : cacheLookup w1 c t = Option.none := by
              rw [hw1]
              cases hcx : getCtx w c with
              | none => simp [cacheLookup, getCtx_updCtx_self, hcx]
              | some cx =>
                simp [cacheLookup, getCtx_updCtx_self, hcx, lookupA_removeA_self]
            exact hps2.cacheNone c (hpsm.cacheNone c h1)
          · have hc1b : c1 ∈ childrenOf w1 c := by
              rw [hps1.children c]
              exact hc1
            have hr1 : ReachC w1 c1 d := ReachC_congr hps1.sameKids hr
            have hmid2 : removeCachedWalk f w1 (childrenOf w1 c) t = Except.ok wmid := hmid
            exact hps2.cacheNone d (ih w1 (childrenOf w1 c) t wmid hmid2 c1 hc1b d hr1)
        · have hrm : ReachC wmid c0 d :=
            ReachC_congr (sameKids_trans hps1.sameKids hpsm.sameKids) hreach
          exact ih wmid rest t w2 h c0 hrest d hrm

/-- C4: a successful `R.add(x, for_type=T)` erases the cached value for `T`
from `R`'s parent cache (`ReachC.refl`) and from the parent cache of every
context reachable through children sets from `R`; consequently a descendant
that is active with resolved parent `R`, holds no local value for `T`, and
had cached `R`'s previous value, now answers a `get` with the newly added
instance (freshly re-cached), not the stale one. -/
theorem C4_add_invalidates_descendant_caches
    (f f2 : Nat) (w : World) (c : CtxId) (v : Val) (t : Ty) (w2 : World)
    (hAdd : addFuel (f + 1) w c v t = Except.ok w2) :
    (∀ d, ReachC w c d → cacheLookup w2 d t = Option.none) ∧
    (∀ d dcx cxR,
      getCtx w2 d = some dcx → getCtx w2 c = some cxR → ReachC w c d →
      lookupA dcx.deps t = Option.none → dcx.isActive = true →
      dcx.isAppRoot = false → dcx.parent = PSpec.ctx c →
      dependencyFuel (f2 + 2) w2 d t true =
        Except.ok (some v,
          updCtx w2 d (fun e => { e with cache := insertA e.cache t v }))) := by
  have hdc : depsLookup w2 c t = some v := (addFuel_shape (f + 1) w c v t w2 hAdd).2.2.1
  have hclear : ∀ d, ReachC w c d → cacheLookup w2 d t = Option.none := by
    rw [addFuel] at hAdd
    cases hc : getCtx w c with
    | none => rw [hc] at hAdd; exact absurd hAdd (by simp)
    | some cx =>
      rw [hc] at hAdd
      simp only at hAdd
      set w1 := updCtx w c (fun e => { e with deps := insertA e.deps t v }) with hw1
      obtain ⟨hk1, _, _, _⟩ := insert_dep_shape w c v t cx hc
      cases hs : cx.sibling with
      | none =>
        rw [hs] at hAdd
        simp only at hAdd
        cases hrc : removeCachedWalk f w1 [c] t with
        | error e => rw [hrc] at hAdd; exact absurd hAdd (by simp)
        | ok wr =>
          rw [hrc] at hAdd
          cases hAdd
          intro d hr
          exact removeCachedWalk_clears f w1 [c] t _ hrc c (by simp) d
            (ReachC_congr hk1 hr)
      | some s =>
        rw [hs] at hAdd
        simp only at hAdd
        cases hsb : addFuel f w1 s v t with
        | error e => rw [hsb] at hAdd; exact absurd hAdd (by simp)
        | ok wmid =>
          rw [hsb] at hAdd
          simp only at hAdd
          cases hrc : removeCachedWalk f wmid [c] t with
          | error e => rw [hrc] at hAdd; exact absurd hAdd (by simp)
          | ok wr =>
            rw [hrc] at hAdd
            cases hAdd
            intro d hr
            have hk2 := (addFuel_shape f w1 s v t wmid hsb).1
            exact removeCachedWalk_clears f wmid [c] t _ hrc c (by simp) d
              (ReachC_congr (sameKids_trans hk1 hk2) hr)
  refine ⟨hclear, ?_⟩
  intro d dcx cxR hd2 hcR hreach hdd hact hnr hpar
  have hchd : lookupA dcx.cache t = Option.none := by
    have h := hclear d hreach
    simpa [cacheLookup, hd2] using h
  have hvR : lookupA cxR.deps t = some v := by
    simpa [depsLookup, hcR] using hdc
  exact dependencyFuel_parent_some (f2 + 1) w2 d c t dcx v w2 hd2 hdd hchd
    (Or.inl hnr) hact hpar
    (dependencyFuel_local_hit f2 w2 c t true cxR v hcR hvR)

/-- Witness for C4 at the chain world: after `R` (id 10) replaces its
instance of type 6, the stale cache entry at `C2` (id 11, a child of `R`)
is gone and a fresh `get` on `C2` returns the new instance 200. -/
theorem C4_add_invalidates_descendant_caches_witness :
    cacheLookup chainWorldAfterAdd 11 6 = Option.none ∧
    dependencyFuel 9 chainWorldAfterAdd 11 6 true =
      Except.ok (some 200,
        updCtx chainWorldAfterAdd 11
          (fun e => { e with cache := insertA e.cache 6 200 })) := by
  have h := C4_add_invalidates_descendant_caches 8 7 chainWorld 10 200 6
    chainWorldAfterAdd rfl
  have hreach : ReachC chainWorld 10 11 :=
    ReachC.step (ReachC.refl 10) (by decide)
  exact ⟨h.1 11 hreach,
    h.2 11 chainC2ClearedCtx chainRAfterCtx rfl rfl hreach rfl rfl rfl rfl⟩

/-! ### Frame property of `dependency(create=False)` (C5) -/

/-- Two worlds with identical local stores and parent caches everywhere. -/
def DCFrame (w w2 : World) : Prop :=
  ∀ d t, depsLookup w2 d t = depsLookup w d t ∧ cacheLookup w2 d t = cacheLookup w d t

theorem dcFrame_refl (w : World) : DCFrame w w := fun _ _ => ⟨rfl, rfl⟩

theorem dcFrame_trans {w w1 w2 : World}
    (h1 : DCFrame w w1) (h2 : DCFrame w1 w2) : DCFrame w w2 :=
  fun d t => ⟨(h2 d t).1.trans (h1 d t).1, (h2 d t).2.trans (h1 d t).2⟩

/-- `XContext.grab` touches no local store and no parent cache: it either
returns the current context unchanged or creates a fresh, empty
thread-root. -/
theorem grab_frame (w : World) (hb : IdsBounded w) (p : CtxId) (w2 : World)
    (h : grab w = Except.ok (p, w2)) : DCFrame w w2 ∧ IdsBounded w2 := by
  unfold grab at h
  cases hcur : w.current with
  | some c =>
    rw [hcur] at h
    simp only [Except.ok.injEq, Prod.mk.injEq] at h
    obtain ⟨_, hw⟩ := h
    subst hw
    exact ⟨dcFrame_refl w, hb⟩
  | none =>
    rw [hcur] at h
    simp only [newCtx] at h
    set nid := w.nextId with hnid
    set wn : World :=
      { w with ctxs := insertA w.ctxs nid (mkCtx PSpec.default), nextId := nid + 1 } with hwn
    have hbn : getCtx w nid = Option.none := hb nid (le_refl _)
    have hgn : getCtx wn nid = some (mkCtx PSpec.default) := by
      simp [getCtx, hwn, lookupA_insertA_self]
    have hgo : ∀ d, d ≠ nid → getCtx wn d = getCtx w d := by
      intro d hd
      simp [getCtx, hwn, lookupA_insertA_ne _ _ _ _ (Ne.symm hd)]
    set cx3 : Ctx :=
      { mkCtx PSpec.default with
        isThreadRoot := true, parent := PSpec.ctx w.appRoot, isActive := true } with hcx3
    set w1 : World := setCtx wn nid cx3 with hw1
    set wfin : World :=
      (match getCtx w1 w.appRoot with
       | some pcx =>
         if pcx.isAppRoot then w1
         else updCtx w1 w.appRoot (fun d => { d with children := addChild d.children nid })
       | Option.none => w1) with hwfin
    have hwncur : wn.current = Option.none := hcur
    have hmc : makeCurrentAndGetResetToken wn nid true false =
        Except.ok (some wn.current, { wfin with current := some nid }) := by
      rw [makeCurrentAndGetResetToken, hgn]
      simp only [mkCtx, hwncur, hcur]
      simp [hcx3, hw1, hwfin, mkCtx, setCtx, hwncur, hcur]
    rw [hmc] at h
    simp only [Except.ok.injEq, Prod.mk.injEq] at h
    obtain ⟨_, hw⟩ := h
    subst hw
    have hframe1 : ∀ d t, depsLookup w1 d t = depsLookup w d t ∧
        cacheLookup w1 d t = cacheLookup w d t := by
      intro d t
      by_cases hd : d = nid
      · subst hd
        constructor
        · simp [depsLookup, hw1, getCtx_setCtx_self, hbn, hcx3, mkCtx, lookupA]
        · simp [cacheLookup, hw1, getCtx_setCtx_self, hbn, hcx3, mkCtx, lookupA]
      · have hg : getCtx w1 d = getCtx w d := by
          rw [hw1, getCtx_setCtx_ne _ _ _ _ (Ne.symm hd)]
          exact hgo d hd
        exact ⟨by simp [depsLookup, hg], by simp [cacheLookup, hg]⟩
    have hframe2 : ∀ d t, depsLookup wfin d t = depsLookup w1 d t ∧
        cacheLookup wfin d t = cacheLookup w1 d t := by
      intro d t
      rw [hwfin]
      cases hap : getCtx w1 w.appRoot with
      | none => exact ⟨rfl, rfl⟩
      | some pcx =>
        by_cases hb2 : pcx.isAppRoot
        · simp [hb2]
        · simp only [hb2, if_false, ite_false, Bool.false_eq_true, reduceIte]
          by_cases hd : d = w.appRoot
          · have hgg : getCtx (updCtx w1 w.appRoot
                (fun e => { e with children := addChild e.children nid })) d =
                some { pcx with children := addChild pcx.children nid } := by
              rw [hd, getCtx_updCtx_self, hap]
              rfl
            have hgw : getCtx w1 d = some pcx := by
              rw [hd]
              exact hap
            exact ⟨by simp [depsLookup, hgg, hgw], by simp [cacheLookup, hgg, hgw]⟩
          · have : getCtx (updCtx w1 w.appRoot
                (fun e => { e with children := addChild e.children nid })) d = getCtx w1 d :=
              getCtx_updCtx_ne _ _ _ _ (fun hh => hd hh.symm)
            exact ⟨by simp [depsLookup, this], by simp [cacheLookup, this]⟩
    have hboundfin : ∀ j, nid + 1 ≤ j → getCtx wfin j = Option.none := by
      intro j hj
      have hjn : j ≠ nid := fun hh => Nat.not_succ_le_self nid (hh ▸ hj)
      have hwj : getCtx w j = Option.none := hb j (Nat.le_of_succ_le hj)
      have h1j : getCtx w1 j = Option.none := by
        rw [hw1, getCtx_setCtx_ne _ _ _ _ (Ne.symm hjn), hgo j hjn]
        exact hwj
      rw [hwfin]
      cases hap : getCtx w1 w.appRoot with
      | none => exact h1j
      | some pcx =>
        by_cases hb2 : pcx.isAppRoot
        · simp [hb2, h1j]
        · simp only [hb2, if_false, ite_false, Bool.false_eq_true, reduceIte]
          by_cases hj2 : w.appRoot = j
          · subst hj2
            rw [hap] at h1j
            exact absurd h1j (by simp)
          · rw [getCtx_updCtx_ne _ _ _ _ hj2]
            exact h1j
    constructor
    · intro d t
      have h2 := hframe2 d t
      have h1 := hframe1 d t
      constructor
      · calc depsLookup { wfin with current := some nid } d t
            = depsLookup wfin d t := rfl
          _ = depsLookup w1 d t := h2.1
          _ = depsLookup w d t := h1.1
      · calc cacheLookup { wfin with current := some nid } d t
            = cacheLookup wfin d t := rfl
          _ = cacheLookup w1 d t := h2.2
          _ = cacheLookup w d t := h1.2
    · intro j hj
      have hnext : wfin.nextId = nid + 1 := by
        rw [hwfin]
        cases hap : getCtx w1 w.appRoot with
        | none => rfl
        | some pcx =>
          by_cases hb2 : pcx.isAppRoot
          · simp [hb2]
            rfl
          · simp only [hb2, Bool.false_eq_true, reduceIte]
            rw [updCtx_nextId]
            rfl
      have hj2 : nid + 1 ≤ j := by
        rw [← hnext]
        exact hj
      exact hboundfin j hj2

/-- The `parent` property touches no local store and no parent cache
(its only world effect is the lazy thread-root creation inside
`XContext.grab`). -/
theorem parentProp_frame (w : World) (c : CtxId) (hb : IdsBounded w)
    (popt : Option CtxId) (w2 : World)
    (h : parentProp w c = Except.ok (popt, w2)) : DCFrame w w2 ∧ IdsBounded w2 := by
  unfold parentProp at h
  cases hc : getCtx w c with
  | none => rw [hc] at h; exact absurd h (by simp)
  | some cx =>
    rw [hc] at h
    simp only at h
    by_cases hact : cx.isActive = true
    · rw [if_pos hact] at h
      cases hpp : cx.parent with
      | default => rw [hpp] at h; exact absurd h (by simp)
      | root => rw [hpp] at h; exact absurd h (by simp)
      | none =>
        rw [hpp] at h
        simp only [Except.ok.injEq, Prod.mk.injEq] at h
        rw [← h.2]
        exact ⟨dcFrame_refl w, hb⟩
      | ctx p =>
        rw [hpp] at h
        simp only [Except.ok.injEq, Prod.mk.injEq] at h
        rw [← h.2]
        exact ⟨dcFrame_refl w, hb⟩
    · rw [if_neg hact] at h
      cases hpp : cx.parent with
      | default =>
        rw [hpp] at h
        cases hg : grab w with
        | error e => rw [hg] at h; exact absurd h (by simp)
        | ok pw =>
          rw [hg] at h
          simp only [Except.ok.injEq, Prod.mk.injEq] at h
          obtain ⟨_, hw⟩ := h
          rw [← hw]
          exact grab_frame w hb pw.1 pw.2 (by rw [hg])
      | none =>
        rw [hpp] at h
        simp only [Except.ok.injEq, Prod.mk.injEq] at h
        rw [← h.2]
        exact ⟨dcFrame_refl w, hb⟩
      | root =>
        rw [hpp] at h
        simp only [Except.ok.injEq, Prod.mk.injEq] at h
        rw [← h.2]
        exact ⟨dcFrame_refl w, hb⟩
      | ctx p => rw [hpp] at h; exact absurd h (by simp)

/-- C5 frame half: `dependency(create=False)` mutates no local store and
no parent cache anywhere in the world. -/
theorem dependencyFuel_false_frame (f : Nat) :
    ∀ (w : World) (c : CtxId) (t : Ty) (v : Option Val) (w2 : World),
    IdsBounded w → dependencyFuel f w c t false = Except.ok (v, w2) →
    DCFrame w w2 ∧ IdsBounded w2 := by
  induction f with
  | zero =>
    intro w c t v w2 _ h
    exact absurd h (by simp [dependencyFuel])
  | succ f ih =>
    intro w c t v w2 hb h
    rw [dependencyFuel] at h
    cases hc : getCtx w c with
    | none => rw [hc] at h; exact absurd h (by simp)
    | some cx =>
      rw [hc] at h
      simp only at h
      cases hd : lookupA cx.deps t with
      | some v0 =>
        rw [hd] at h
        simp only [Except.ok.injEq, Prod.mk.injEq] at h
        rw [← h.2]
        exact ⟨dcFrame_refl w, hb⟩
      | none =>
        rw [hd] at h
        simp only at h
        cases hch : lookupA cx.cache t with
        | some v0 =>
          rw [hch] at h
          simp only [Except.ok.injEq, Prod.mk.injEq] at h
          rw [← h.2]
          exact ⟨dcFrame_refl w, hb⟩
        | none =>
          rw [hch] at h
          simp only at h
          cases hgate : (if cx.isAppRoot = true then
              match isDependencyThreadSharable w t with
              | Except.error e => Except.error e
              | Except.ok b => Except.ok (!b)
            else Except.ok false) with
          | error e => rw [hgate] at h; exact absurd h (by simp)
          | ok b =>
            rw [hgate] at h
            cases b with
            | true =>
              simp only [Except.ok.injEq, Prod.mk.injEq] at h
              rw [← h.2]
              exact ⟨dcFrame_refl w, hb⟩
            | false =>
              simp only at h
              cases hpp : parentProp w c with
              | error e => rw [hpp] at h; exact absurd h (by simp)
              | ok pw =>
                obtain ⟨popt, w1⟩ := pw
                rw [hpp] at h
                obtain ⟨hf1, hb1⟩ := parentProp_frame w c hb popt w1 hpp
                cases hpo : popt with
                | none =>
                  rw [hpo] at h
                  simp only [Bool.false_eq_true, reduceIte, Except.ok.injEq,
                    Prod.mk.injEq] at h
                  rw [← h.2]
                  exact ⟨hf1, hb1⟩
                | some p =>
                  rw [hpo] at h
                  simp only at h
                  cases hrec : dependencyFuel f w1 p t false with
                  | error e => rw [hrec] at h; exact absurd h (by simp)
                  | ok rw2 =>
                    obtain ⟨rv, rw3⟩ := rw2
                    rw [hrec] at h
                    simp only [Bool.false_eq_true, reduceIte, Except.ok.injEq,
                      Prod.mk.injEq] at h
                    obtain ⟨hf2, hb2⟩ := ih w1 p t rv rw3 hb1 hrec
                    rw [← h.2]
                    exact ⟨dcFrame_trans hf1 hf2, hb2⟩

/-- The bootstrap world has no context at id 2 or above. -/
theorem bootWorld_idsBounded : IdsBounded bootWorld := by
  intro j hj
  have hj2 : 2 ≤ j := hj
  have hctxs : bootWorld.ctxs = [(0, appRootCtx), (1, threadRootCtx)] := rfl
  show lookupA bootWorld.ctxs j = Option.none
  rw [hctxs]
  have h0 : (0 : Nat) ≠ j := by
    intro h
    rw [← h] at hj2
    exact absurd hj2 (by decide)
  have h1 : (1 : Nat) ≠ j := by
    intro h
    rw [← h] at hj2
    exact absurd hj2 (by decide)
  simp [lookupA, h0, h1]

/-- C5: `dependency(create=False)` is a pure query — a successful call
mutates no local store and no parent cache anywhere in the world — and,
when the context misses the type in both stores and the app-root gate does
not fire, it returns exactly whatever the resolved parent chain produces
(possibly `None`), i.e. the call is literally the parent fetch. -/
theorem C5_create_false_no_mutation
    (f : Nat) (w : World) (c : CtxId) (t : Ty) (cx : Ctx)
    (hb : IdsBounded w) :
    (∀ v w2, dependencyFuel f w c t false = Except.ok (v, w2) →
      ∀ d t2, depsLookup w2 d t2 = depsLookup w d t2 ∧
        cacheLookup w2 d t2 = cacheLookup w d t2) ∧
    (getCtx w c = some cx → lookupA cx.deps t = Option.none →
      lookupA cx.cache t = Option.none →
      (cx.isAppRoot = false ∨
        ((tyInfoOf w t).hasMeta = true ∧ (tyInfoOf w t).sharable.getD true = true)) →
      dependencyFuel (f + 1) w c t false = parentFetch f w c t false) := by
  constructor
  · intro v w2 h d t2
    exact (dependencyFuel_false_frame f w c t v w2 hb h).1 d t2
  · intro hc hd hch hGate
    have hg := dependencyFuel_gate_off w t cx hGate
    cases hpp : parentProp w c with
    | error e =>
      rw [show dependencyFuel (f + 1) w c t false = Except.error e by
        simp [dependencyFuel, hc, hd, hch, hg, hpp]]
      simp [parentFetch, hpp]
    | ok pw =>
      obtain ⟨popt, w1⟩ := pw
      cases popt with
      | none =>
        rw [show dependencyFuel (f + 1) w c t false = Except.ok (Option.none, w1) by
          simp [dependencyFuel, hc, hd, hch, hg, hpp]]
        simp [parentFetch, hpp]
      | some p =>
        cases hrec : dependencyFuel f w1 p t false with
        | error e =>
          rw [show dependencyFuel (f + 1) w c t false = Except.error e by
            simp [dependencyFuel, hc, hd, hch, hg, hpp, hrec]]
          simp [parentFetch, hpp, hrec]
        | ok rw2 =>
          obtain ⟨rv, rw3⟩ := rw2
          rw [show dependencyFuel (f + 1) w c t false = Except.ok (rv, rw3) by
            simp [dependencyFuel, hc, hd, hch, hg, hpp, hrec]]
          simp [parentFetch, hpp, hrec]

/-- Witness for C5 at the bootstrap world: a `create=False` query for type
1 on the thread-root succeeds, returns `None` from the chain, leaves the
world unchanged, and equals its parent fetch. -/
theorem C5_create_false_no_mutation_witness :
    (depsLookup bootWorld 0 1 = depsLookup bootWorld 0 1 ∧
      cacheLookup bootWorld 0 1 = cacheLookup bootWorld 0 1) ∧
    dependencyFuel 6 bootWorld 1 1 false = parentFetch 5 bootWorld 1 1 false := by
  have h := C5_create_false_no_mutation 5 bootWorld 1 1 threadRootCtx bootWorld_idsBounded
  exact ⟨h.1 Option.none bootWorld rfl 0 1, h.2 rfl rfl rfl (Or.inl rfl)⟩

/-! ### Activation (`__enter__` / `_make_current_and_get_reset_token`) -/

/-- Shape of the world produced by a successful non-app-root activation:
the activated context keeps its store, cache, sibling and token stack and
becomes active; every other context keeps all fields except possibly an
enlarged children set (the parent registration); ids, instance counter and
absent contexts are untouched; the activated context becomes current. -/
theorem activate_result_shape (w : World) (c : CtxId) (cx cx3 : Ctx) (wfin : World)
    (hc : getCtx w c = some cx)
    (hdeps : cx3.deps = cx.deps) (hcache : cx3.cache = cx.cache)
    (hsib : cx3.sibling = cx.sibling) (htok : cx3.tokenStack = cx.tokenStack)
    (hact : cx3.isActive = true)
    (hstep : wfin = setCtx w c cx3 ∨
      ∃ q, wfin = updCtx (setCtx w c cx3) q
        (fun e => { e with children := addChild e.children c })) :
    ({ wfin with current := some c } : World).current = some c ∧
    (∃ cx2, getCtx { wfin with current := some c } c = some cx2 ∧
      cx2.deps = cx.deps ∧ cx2.cache = cx.cache ∧ cx2.sibling = cx.sibling ∧
      cx2.isActive = true ∧ cx2.tokenStack = cx.tokenStack) ∧
    (∀ d, d ≠ c → ∀ dcx, getCtx w d = some dcx →
      ∃ dcx2, getCtx { wfin with current := some c } d = some dcx2 ∧
        dcx2.deps = dcx.deps ∧ dcx2.cache = dcx.cache ∧
        dcx2.tokenStack = dcx.tokenStack ∧ dcx2.sibling = dcx.sibling ∧
        dcx2.isActive = dcx.isActive) ∧
    (∀ d, getCtx w d = Option.none → getCtx { wfin with current := some c } d = Option.none) ∧
    ({ wfin with current := some c } : World).nextId = w.nextId ∧
    ({ wfin with current := some c } : World).nextIdent = w.nextIdent := by
  have hget : ∀ d, getCtx ({ wfin with current := some c } : World) d = getCtx wfin d :=
    fun _ => rfl
  refine ⟨rfl, ?_, ?_, ?_, ?_, ?_⟩
  · rcases hstep with rfl | ⟨q, rfl⟩
    · exact ⟨cx3, by rw [hget, getCtx_setCtx_self], hdeps, hcache, hsib, hact, htok⟩
    · by_cases hq : q = c
      · refine ⟨{ cx3 with children := addChild cx3.children c }, ?_, hdeps, hcache, hsib, hact, htok⟩
        rw [hget, hq, getCtx_updCtx_self, getCtx_setCtx_self]
        rfl
      · exact ⟨cx3, by rw [hget, getCtx_updCtx_ne _ _ _ _ hq, getCtx_setCtx_self],
          hdeps, hcache, hsib, hact, htok⟩
  · intro d hd dcx hdcx
    rcases hstep with rfl | ⟨q, rfl⟩
    · exact ⟨dcx, by rw [hget, getCtx_setCtx_ne _ _ _ _ (Ne.symm hd)]; exact hdcx,
        rfl, rfl, rfl, rfl, rfl⟩
    · by_cases hq : q = d
      · refine ⟨{ dcx with children := addChild dcx.children c }, ?_, rfl, rfl, rfl, rfl, rfl⟩
        rw [hget, hq, getCtx_updCtx_self, getCtx_setCtx_ne _ _ _ _ (Ne.symm hd), hdcx]
        rfl
      · refine ⟨dcx, ?_, rfl, rfl, rfl, rfl, rfl⟩
        rw [hget, getCtx_updCtx_ne _ _ _ _ hq, getCtx_setCtx_ne _ _ _ _ (Ne.symm hd)]
        exact hdcx
  · intro d hdn
    have hdc : d ≠ c := by
      intro hh
      rw [hh, hc] at hdn
      exact Option.noConfusion hdn
    rcases hstep with rfl | ⟨q, rfl⟩
    · rw [hget, getCtx_setCtx_ne _ _ _ _ (Ne.symm hdc)]
      exact hdn
    · by_cases hq : q = d
      · rw [hget, hq]
        unfold updCtx
        rw [getCtx_setCtx_ne _ _ _ _ (Ne.symm hdc), hdn]
        rw [getCtx_setCtx_ne _ _ _ _ (Ne.symm hdc)]
        exact hdn
      · rw [hget, getCtx_updCtx_ne _ _ _ _ hq, getCtx_setCtx_ne _ _ _ _ (Ne.symm hdc)]
        exact hdn
  · rcases hstep with rfl | ⟨q, rfl⟩
    · rfl
    · show (updCtx (setCtx w c cx3) q _).nextId = w.nextId
      rw [updCtx_nextId]
      rfl
  · rcases hstep with rfl | ⟨q, rfl⟩
    · rfl
    · show (updCtx (setCtx w c cx3) q _).nextIdent = w.nextIdent
      rw [updCtx_nextIdent]
      rfl

/-- Successful non-app-root activation
(`_make_current_and_get_reset_token` with `is_app_root_context=False`):
the returned token is the previous current context; the activated context
becomes current, keeping its store, cache, sibling and token stack while
turning active; every other context keeps all fields except possibly its
children set; absent ids stay absent and the counters are unchanged. -/
theorem makeCurrent_ok (w : World) (c : CtxId) (tf : Bool) (cx : Ctx)
    (hc : getCtx w c = some cx)
    (tokOpt : Option (Option CtxId)) (w2 : World)
    (h : makeCurrentAndGetResetToken w c tf false = Except.ok (tokOpt, w2)) :
    tokOpt = some w.current ∧ w2.current = some c ∧
    (∃ cx2, getCtx w2 c = some cx2 ∧ cx2.deps = cx.deps ∧ cx2.cache = cx.cache ∧
      cx2.sibling = cx.sibling ∧ cx2.isActive = true ∧ cx2.tokenStack = cx.tokenStack) ∧
    (∀ d, d ≠ c → ∀ dcx, getCtx w d = some dcx →
      ∃ dcx2, getCtx w2 d = some dcx2 ∧ dcx2.deps = dcx.deps ∧ dcx2.cache = dcx.cache ∧
        dcx2.tokenStack = dcx.tokenStack ∧ dcx2.sibling = dcx.sibling ∧
        dcx2.isActive = dcx.isActive) ∧
    (∀ d, getCtx w d = Option.none → getCtx w2 d = Option.none) ∧
    w2.nextId = w.nextId ∧ w2.nextIdent = w.nextIdent := by
  rw [makeCurrentAndGetResetToken, hc] at h
  simp only at h
  split at h
  next => exact absurd h (by simp)
  next =>
  split at h
  next => exact absurd h (by simp)
  next =>
  cases hpar : cx.parent with
  | default =>
    rw [hpar] at h
    cases hcur : w.current with
    | some q =>
      rw [hcur] at h
      simp only at h
      split at h
      next hcond => exact absurd hcond (by simp)
      next =>
      split at h
      next pcx hpget =>
        split at h
        next happ =>
          simp only [Except.ok.injEq, Prod.mk.injEq] at h
          obtain ⟨htok, hw2⟩ := h
          subst hw2
          have hs := activate_result_shape w c cx
            { cx with
              isAppRoot := cx.isAppRoot || false
              isThreadRoot := cx.isThreadRoot || tf
              parent := PSpec.ctx q
              isActive := true } _ hc rfl rfl rfl rfl rfl (Or.inl rfl)
          exact ⟨htok.symm, hs.1, hs.2.1, hs.2.2.1, hs.2.2.2.1, hs.2.2.2.2.1, hs.2.2.2.2.2⟩
        next happ =>
          simp only [Except.ok.injEq, Prod.mk.injEq] at h
          obtain ⟨htok, hw2⟩ := h
          subst hw2
          have hs := activate_result_shape w c cx
            { cx with
              isAppRoot := cx.isAppRoot || false
              isThreadRoot := cx.isThreadRoot || tf
              parent := PSpec.ctx q
              isActive := true } _ hc rfl rfl rfl rfl rfl (Or.inr ⟨q, rfl⟩)
          exact ⟨htok.symm, hs.1, hs.2.1, hs.2.2.1, hs.2.2.2.1, hs.2.2.2.2.1, hs.2.2.2.2.2⟩
      next hpget =>
        simp only [Except.ok.injEq, Prod.mk.injEq] at h
        obtain ⟨htok, hw2⟩ := h
        subst hw2
        have hs := activate_result_shape w c cx
          { cx with
            isAppRoot := cx.isAppRoot || false
            isThreadRoot := cx.isThreadRoot || tf
            parent := PSpec.ctx q
            isActive := true } _ hc rfl rfl rfl rfl rfl (Or.inl rfl)
        exact ⟨htok.symm, hs.1, hs.2.1, hs.2.2.1, hs.2.2.2.1, hs.2.2.2.2.1, hs.2.2.2.2.2⟩
    | none =>
      rw [hcur] at h
      simp only at h
      split at h
      next hcond => exact absurd hcond (by simp)
      next =>
      split at h
      next pcx hpget =>
        split at h
        next happ =>
          simp only [Except.ok.injEq, Prod.mk.injEq] at h
          obtain ⟨htok, hw2⟩ := h
          subst hw2
          have hs := activate_result_shape w c cx
            { cx with
              isAppRoot := cx.isAppRoot || false
              isThreadRoot := cx.isThreadRoot || tf
              parent := PSpec.ctx w.appRoot
              isActive := true } _ hc rfl rfl rfl rfl rfl (Or.inl rfl)
          exact ⟨htok.symm, hs.1, hs.2.1, hs.2.2.1, hs.2.2.2.1, hs.2.2.2.2.1, hs.2.2.2.2.2⟩
        next happ =>
          simp only [Except.ok.injEq, Prod.mk.injEq] at h
          obtain ⟨htok, hw2⟩ := h
          subst hw2
          have hs := activate_result_shape w c cx
            { cx with
              isAppRoot := cx.isAppRoot || false
              isThreadRoot := cx.isThreadRoot || tf
              parent := PSpec.ctx w.appRoot
              isActive := true } _ hc rfl rfl rfl rfl rfl (Or.inr ⟨w.appRoot, rfl⟩)
          exact ⟨htok.symm, hs.1, hs.2.1, hs.2.2.1, hs.2.2.2.1, hs.2.2.2.2.1, hs.2.2.2.2.2⟩
      next hpget =>
        simp only [Except.ok.injEq, Prod.mk.injEq] at h
        obtain ⟨htok, hw2⟩ := h
        subst hw2
        have hs := activate_result_shape w c cx
          { cx with
            isAppRoot := cx.isAppRoot || false
            isThreadRoot := cx.isThreadRoot || tf
            parent := PSpec.ctx w.appRoot
            isActive := true } _ hc rfl rfl rfl rfl rfl (Or.inl rfl)
        exact ⟨htok.symm, hs.1, hs.2.1, hs.2.2.1, hs.2.2.2.1, hs.2.2.2.2.1, hs.2.2.2.2.2⟩
  | root =>
    rw [hpar] at h
    simp only at h
    split at h
    next hcond => exact absurd hcond (by simp)
    next =>
    simp only [Except.ok.injEq, Prod.mk.injEq] at h
    obtain ⟨htok, hw2⟩ := h
    subst hw2
    have hs := activate_result_shape w c cx
      { cx with
        isAppRoot := cx.isAppRoot || false
        isThreadRoot := cx.isThreadRoot || tf
        parent := PSpec.none
        originallyNone := false
        isActive := true } _ hc rfl rfl rfl rfl rfl (Or.inl rfl)
    exact ⟨htok.symm, hs.1, hs.2.1, hs.2.2.1, hs.2.2.2.1, hs.2.2.2.2.1, hs.2.2.2.2.2⟩
  | none =>
    rw [hpar] at h
    simp only at h
    split at h
    next hcond => exact absurd hcond (by simp)
    next =>
    simp only [Except.ok.injEq, Prod.mk.injEq] at h
    obtain ⟨htok, hw2⟩ := h
    subst hw2
    have hs := activate_result_shape w c cx
      { cx with
        isAppRoot := cx.isAppRoot || false
        isThreadRoot := cx.isThreadRoot || tf
        parent := PSpec.none
        isActive := true } _ hc rfl rfl rfl rfl rfl (Or.inl rfl)
    exact ⟨htok.symm, hs.1, hs.2.1, hs.2.2.1, hs.2.2.2.1, hs.2.2.2.2.1, hs.2.2.2.2.2⟩
  | ctx p =>
    rw [hpar] at h
    simp only at h
    split at h
    next hcond => exact absurd hcond (by simp)
    next =>
    split at h
    next pcx hpget =>
      split at h
      next happ =>
        simp only [Except.ok.injEq, Prod.mk.injEq] at h
        obtain ⟨htok, hw2⟩ := h
        subst hw2
        have hs := activate_result_shape w c cx
          { cx with
            isAppRoot := cx.isAppRoot || false
            isThreadRoot := cx.isThreadRoot || tf
            parent := PSpec.ctx p
            isActive := true } _ hc rfl rfl rfl rfl rfl (Or.inl rfl)
        exact ⟨htok.symm, hs.1, hs.2.1, hs.2.2.1, hs.2.2.2.1, hs.2.2.2.2.1, hs.2.2.2.2.2⟩
      next happ =>
        simp only [Except.ok.injEq, Prod.mk.injEq] at h
        obtain ⟨htok, hw2⟩ := h
        subst hw2
        have hs := activate_result_shape w c cx
          { cx with
            isAppRoot := cx.isAppRoot || false
            isThreadRoot := cx.isThreadRoot || tf
            parent := PSpec.ctx p
            isActive := true } _ hc rfl rfl rfl rfl rfl (Or.inr ⟨p, rfl⟩)
        exact ⟨htok.symm, hs.1, hs.2.1, hs.2.2.1, hs.2.2.2.1, hs.2.2.2.2.1, hs.2.2.2.2.2⟩
    next hpget =>
      simp only [Except.ok.injEq, Prod.mk.injEq] at h
      obtain ⟨htok, hw2⟩ := h
      subst hw2
      have hs := activate_result_shape w c cx
        { cx with
          isAppRoot := cx.isAppRoot || false
          isThreadRoot := cx.isThreadRoot || tf
          parent := PSpec.ctx p
          isActive := true } _ hc rfl rfl rfl rfl rfl (Or.inl rfl)
      exact ⟨htok.symm, hs.1, hs.2.1, hs.2.2.1, hs.2.2.2.1, hs.2.2.2.2.1, hs.2.2.2.2.2⟩

/-- Overwriting a context with a record that keeps its local store
preserves every local-store lookup. -/
theorem depsLookup_setCtx_preserve (w : World) (d : CtxId) (dcx newcx : Ctx)
    (hd : getCtx w d = some dcx) (hdeps : newcx.deps = dcx.deps) :
    ∀ e t, depsLookup (setCtx w d newcx) e t = depsLookup w e t := by
  intro e t
  by_cases he : e = d
  · rw [he]
    simp [depsLookup, getCtx_setCtx_self, hd, hdeps]
  · simp [depsLookup, getCtx_setCtx_ne _ _ _ _ (fun hh => he hh.symm)]

/-- Entering an inactive context activates the context itself (no copy):
the returned context is the original, it becomes current, the reset token
recording the previous current context is pushed onto its token stack,
its store, cache and sibling are untouched, every other context keeps its
fields (except possibly its children set), and the counters are
unchanged. -/
theorem enterCtx_inactive_ok (w : World) (c : CtxId) (cx : Ctx)
    (hc : getCtx w c = some cx)
    (hinact : cx.isActive = false)
    (a : CtxId) (w1 : World) (h : enterCtx w c = Except.ok (a, w1)) :
    a = c ∧ w1.current = some c ∧
    tokenStackOf w1 c = w.current :: cx.tokenStack ∧
    (∃ cx2, getCtx w1 c = some cx2 ∧ cx2.deps = cx.deps ∧ cx2.cache = cx.cache ∧
      cx2.sibling = cx.sibling ∧ cx2.isActive = true ∧
      cx2.tokenStack = w.current :: cx.tokenStack) ∧
    (∀ d, d ≠ c → ∀ dcx, getCtx w d = some dcx →
      ∃ dcx2, getCtx w1 d = some dcx2 ∧ dcx2.deps = dcx.deps ∧ dcx2.cache = dcx.cache ∧
        dcx2.tokenStack = dcx.tokenStack ∧ dcx2.sibling = dcx.sibling ∧
        dcx2.isActive = dcx.isActive) ∧
    w1.nextId = w.nextId ∧ w1.nextIdent = w.nextIdent := by
  rw [enterCtx, hc] at h
  simp only [hinact, Bool.false_eq_true, reduceIte] at h
  cases hmc : makeCurrentAndGetResetToken w c false false with
  | error e => rw [hmc] at h; exact absurd h (by simp)
  | ok pw =>
    obtain ⟨tokOpt, wm⟩ := pw
    rw [hmc] at h
    obtain ⟨htok, hcurm, ⟨cx2, hg2, hd2, hch2, hs2, ha2, ht2⟩, hoth, hnone, hnid, hnident⟩ :=
      makeCurrent_ok w c false cx hc tokOpt wm hmc
    cases hto : tokOpt with
    | none => rw [hto] at htok; exact absurd htok (by simp)
    | some tok =>
      rw [hto] at h
      simp only [Except.ok.injEq, Prod.mk.injEq] at h
      obtain ⟨hac, hw1⟩ := h
      rw [hto] at htok
      have htokv : tok = w.current := Option.some.inj htok
      subst hw1
      refine ⟨hac.symm, ?_, ?_, ?_, ?_, ?_, ?_⟩
      · rw [updCtx_current]
        rw [hcurm]
      · simp [tokenStackOf, getCtx_updCtx_self, hg2, ht2, htokv]
      · refine ⟨{ cx2 with tokenStack := tok :: cx2.tokenStack }, ?_, hd2, hch2, hs2, ha2, ?_⟩
        · rw [getCtx_updCtx_self, hg2]
          rfl
        · simp [ht2, htokv]
      · intro d hd dcx hdcx
        obtain ⟨dcx2, hg3, hfields⟩ := hoth d hd dcx hdcx
        exact ⟨dcx2, by rw [getCtx_updCtx_ne _ _ _ _ (fun hh => hd hh.symm)]; exact hg3, hfields⟩
      · rw [updCtx_nextId]; exact hnid
      · rw [updCtx_nextIdent]; exact hnident


/-- Entering an already active context (re-entrant activation) activates
a fresh shallow copy: the returned context is the newly allocated id,
distinct from the original; the copy carries the same local store, an
empty cache, an empty token stack and a sibling link back to the
original; the copy becomes current; the reset token is pushed on the
ORIGINAL context; the original keeps its store, cache and sibling; and no
other local store changes. -/
theorem enterCtx_active_ok (w : World) (c : CtxId) (cx : Ctx)
    (hc : getCtx w c = some cx)
    (hact : cx.isActive = true)
    (hb : IdsBounded w)
    (a : CtxId) (w1 : World) (h : enterCtx w c = Except.ok (a, w1)) :
    a = w.nextId ∧ a ≠ c ∧ w1.current = some a ∧
    (∃ acx, getCtx w1 a = some acx ∧ acx.deps = cx.deps ∧ acx.cache = [] ∧
      acx.sibling = some c ∧ acx.isActive = true ∧ acx.tokenStack = []) ∧
    tokenStackOf w1 c = w.current :: cx.tokenStack ∧
    (∃ cx4, getCtx w1 c = some cx4 ∧ cx4.deps = cx.deps ∧ cx4.cache = cx.cache ∧
      cx4.sibling = cx.sibling ∧ cx4.isActive = true) ∧
    (∀ d t, d ≠ a → depsLookup w1 d t = depsLookup w d t) := by
  have hcnid : c ≠ w.nextId := by
    intro hh
    rw [hh, hb w.nextId (le_refl _)] at hc
    exact Option.noConfusion hc
  rw [enterCtx, hc] at h
  simp only [hact, reduceIte] at h
  rw [copyCtx, hc] at h
  simp only at h
  set p : PSpec := (if cx.parent = PSpec.root then PSpec.root
    else if cx.originallyNone = true then PSpec.none else PSpec.default) with hp
  set nid : CtxId := w.nextId with hnid
  rw [show (newCtx w p).1 = nid from rfl] at h
  set wsib : World :=
    updCtx (updCtx (newCtx w p).2 nid (fun d => { d with deps := cx.deps })) nid
      (fun d => { d with sibling := some c }) with hwsib
  have hgn0 : getCtx (newCtx w p).2 nid = some (mkCtx p) := by
    simp [newCtx, getCtx, lookupA_insertA_self]
  have hgnsib : getCtx wsib nid =
      some { mkCtx p with deps := cx.deps, sibling := some c } := by
    rw [hwsib, getCtx_updCtx_self, getCtx_updCtx_self, hgn0]
    rfl
  have hgother : ∀ d, d ≠ nid → getCtx wsib d = getCtx w d := by
    intro d hd
    rw [hwsib, getCtx_updCtx_ne _ _ _ _ (Ne.symm hd), getCtx_updCtx_ne _ _ _ _ (Ne.symm hd)]
    simp [newCtx, getCtx, lookupA_insertA_ne _ _ _ _ (Ne.symm hd)]
  have hsibcur : wsib.current = w.current := by
    rw [hwsib, updCtx_current, updCtx_current]
    rfl
  cases hmc : makeCurrentAndGetResetToken wsib nid false false with
  | error e =>
    rw [hmc] at h
    exact absurd h (by simp)
  | ok pw =>
    obtain ⟨tokOpt, wm⟩ := pw
    rw [hmc] at h
    obtain ⟨htok, hcurm, ⟨cx2, hg2, hd2, hch2, hs2, ha2, ht2⟩, hoth, hnone, hnid2, hnident⟩ :=
      makeCurrent_ok wsib nid false _ hgnsib tokOpt wm hmc
    cases hto : tokOpt with
    | none =>
      rw [hto] at htok
      exact absurd htok (by simp)
    | some tok =>
      rw [hto] at h
      simp only [Except.ok.injEq, Prod.mk.injEq] at h
      obtain ⟨hac, hw1⟩ := h
      rw [hto] at htok
      have htokv : tok = w.current := by
        have := Option.some.inj htok
        rw [this, hsibcur]
      subst hw1
      obtain ⟨cxc, hgc, hcdeps, hccache, hctok, hcsib, hcact⟩ :=
        hoth c hcnid cx (by rw [hgother c hcnid]; exact hc)
      refine ⟨hac.symm, ?_, ?_, ?_, ?_, ?_, ?_⟩
      · rw [← hac]
        exact Ne.symm hcnid
      · rw [updCtx_current, hcurm, hac]
      · rw [← hac]
        refine ⟨cx2, ?_, hd2, hch2, hs2, ha2, ht2⟩
        rw [getCtx_updCtx_ne _ _ _ _ hcnid]
        exact hg2
      · simp only [tokenStackOf, getCtx_updCtx_self, hgc]
        simp [hctok, htokv]
      · refine ⟨{ cxc with tokenStack := tok :: cxc.tokenStack }, ?_, hcdeps, hccache, ?_, ?_⟩
        · rw [getCtx_updCtx_self, hgc]
          rfl
        · exact hcsib
        · rw [hcact, hact]
      · intro d t hd
        rw [← hac] at hd
        have hdups : depsLookup (updCtx wm c
            (fun e => { e with tokenStack := tok :: e.tokenStack })) d t =
            depsLookup wm d t := by
          by_cases hdc : d = c
          · rw [hdc]
            simp [depsLookup, getCtx_updCtx_self, hgc]
          · simp [depsLookup, getCtx_updCtx_ne _ _ _ _ (fun hh => hdc hh.symm)]
        rw [hdups]
        cases hgd : getCtx w d with
        | none =>
          have hn1 : getCtx wsib d = Option.none := by
            rw [hgother d hd]
            exact hgd
          have hn2 : getCtx wm d = Option.none := hnone d hn1
          simp [depsLookup, hn2, hgd]
        | some dcx =>
          obtain ⟨dcx2, hg3, hdeps3, _⟩ :=
            hoth d hd dcx (by rw [hgother d hd]; exact hgd)
          simp [depsLookup, hg3, hgd, hdeps3]


/-- Overwriting a context with a record that keeps its token stack
preserves every token-stack lookup. -/
theorem tokenStackOf_setCtx_preserve (w : World) (d : CtxId) (dcx newcx : Ctx)
    (hd : getCtx w d = some dcx) (hts : newcx.tokenStack = dcx.tokenStack) :
    ∀ e, tokenStackOf (setCtx w d newcx) e = tokenStackOf w e := by
  intro e
  by_cases he : e = d
  · rw [he]
    simp [tokenStackOf, getCtx_setCtx_self, hd, hts]
  · simp [tokenStackOf, getCtx_setCtx_ne _ _ _ _ (fun hh => he hh.symm)]

/-- A pointwise update that keeps local stores preserves every
local-store lookup. -/
theorem depsLookup_updCtx_preserve (w : World) (d : CtxId) (g : Ctx → Ctx)
    (hg : ∀ e, (g e).deps = e.deps) :
    ∀ e t, depsLookup (updCtx w d g) e t = depsLookup w e t := by
  intro e t
  by_cases he : e = d
  · rw [he]
    cases hd : getCtx w d with
    | none => simp [depsLookup, getCtx_updCtx_self, hd]
    | some dcx => simp [depsLookup, getCtx_updCtx_self, hd, hg]
  · simp [depsLookup, getCtx_updCtx_ne _ _ _ _ (fun hh => he hh.symm)]

/-- A pointwise update that keeps token stacks preserves every
token-stack lookup. -/
theorem tokenStackOf_updCtx_preserve (w : World) (d : CtxId) (g : Ctx → Ctx)
    (hg : ∀ e, (g e).tokenStack = e.tokenStack) :
    ∀ e, tokenStackOf (updCtx w d g) e = tokenStackOf w e := by
  intro e
  by_cases he : e = d
  · rw [he]
    cases hd : getCtx w d with
    | none => simp [tokenStackOf, getCtx_updCtx_self, hd]
    | some dcx => simp [tokenStackOf, getCtx_updCtx_self, hd, hg]
  · simp [tokenStackOf, getCtx_updCtx_ne _ _ _ _ (fun hh => he hh.symm)]

/-- Exiting pops the top reset token from the exited context, restores
the context variable to that token (the context that was current before
the matching enter), and never touches any local store. -/
theorem exitCtx_ok (w : World) (c u : CtxId) (cx : Ctx) (tok : Option CtxId)
    (rest : List (Option CtxId))
    (hc : getCtx w c = some cx)
    (hts : cx.tokenStack = tok :: rest)
    (hcur : w.current = some u)
    (w2 : World) (h : exitCtx w c = Except.ok w2) :
    w2.current = tok ∧ tokenStackOf w2 c = rest ∧
    (∀ d t, depsLookup w2 d t = depsLookup w d t) := by
  rw [exitCtx, hc] at h
  simp only at h
  rw [hts] at h
  simp only at h
  set w1 : World := setCtx w c { cx with tokenStack := rest } with hw1
  have hgrab : grab w1 = Except.ok (u, w1) := by
    unfold grab
    rw [show w1.current = some u from hcur]
  rw [hgrab] at h
  simp only at h
  have hdep1 : ∀ d t, depsLookup w1 d t = depsLookup w d t :=
    depsLookup_setCtx_preserve w c cx _ hc rfl
  have htok1 : tokenStackOf w1 c = rest := by
    simp [tokenStackOf, hw1, getCtx_setCtx_self]
  split at h
  next hgu => exact absurd h (by simp)
  next ucx hgu =>
  split at h
  next e hsibE => exact absurd h (by simp)
  next dd hsibOk =>
  split at h
  next hgd => exact absurd h (by simp)
  next dcx hgd =>
  split at h
  next hne => exact absurd h (by simp)
  next hne =>
  have hdep3 : ∀ d t,
      depsLookup (setCtx { w1 with current := tok } dd
        { dcx with isActive := false, cache := [] }) d t = depsLookup w d t := by
    intro d t
    rw [depsLookup_setCtx_preserve { w1 with current := tok } dd dcx
      { dcx with isActive := false, cache := [] } hgd rfl d t]
    exact hdep1 d t
  have htok3 : tokenStackOf (setCtx { w1 with current := tok } dd
      { dcx with isActive := false, cache := [] }) c = rest := by
    rw [tokenStackOf_setCtx_preserve { w1 with current := tok } dd dcx
      { dcx with isActive := false, cache := [] } hgd rfl c]
    exact htok1
  split at h
  next p hpar =>
    split at h
    next hgp => exact absurd h (by simp)
    next pcx hgp =>
    split at h
    next hmem =>
      split at h
      next hgd2 => exact absurd h (by simp)
      next dcx2 hgd2 =>
      split at h
      next hkids =>
        simp only [Except.ok.injEq] at h
        subst h
        refine ⟨?_, ?_, ?_⟩
        · rw [updCtx_current]
          rfl
        · rw [tokenStackOf_updCtx_preserve _ _
              (fun e => { e with parent := PSpec.default }) (fun e => rfl) c,
            tokenStackOf_setCtx_preserve _ _ pcx
              { pcx with children := pcx.children.erase dd } hgp rfl c]
          exact htok3
        · intro d t
          rw [depsLookup_updCtx_preserve _ _
              (fun e => { e with parent := PSpec.default }) (fun e => rfl) d t,
            depsLookup_setCtx_preserve _ _ pcx
              { pcx with children := pcx.children.erase dd } hgp rfl d t]
          exact hdep3 d t
      next hkids => exact absurd h (by simp)
    next hmem => exact absurd h (by simp)
  next hpar =>
    split at h
    next hkids =>
      simp only [Except.ok.injEq] at h
      subst h
      exact ⟨rfl, htok3, hdep3⟩
    next hkids => exact absurd h (by simp)

/-- C7: per-thread LIFO stack discipline of activation.  A successful
`enter()` makes the returned context current and pushes a reset token
recording the context that was current immediately before onto the entered
context's token stack.  The matching `exit()` — any successful exit of that
context performed when its token stack is back in the state this enter left
it in, in particular the immediate one — pops that token and restores
exactly the pre-enter context as current. -/
theorem C7_enter_exit_lifo (w : World) (c : CtxId) (cx : Ctx)
    (hb : IdsBounded w)
    (hc : getCtx w c = some cx)
    (a : CtxId) (w1 : World)
    (hEnter : enterCtx w c = Except.ok (a, w1)) :
    w1.current = some a ∧
    tokenStackOf w1 c = w.current :: cx.tokenStack ∧
    (∀ wmid cxm am w3, getCtx wmid c = some cxm →
      cxm.tokenStack = w.current :: cx.tokenStack →
      wmid.current = some am →
      exitCtx wmid c = Except.ok w3 →
      w3.current = w.current ∧ tokenStackOf w3 c = cx.tokenStack) ∧
    (∀ w3, exitCtx w1 c = Except.ok w3 →
      w3.current = w.current ∧ tokenStackOf w3 c = cx.tokenStack) := by
  have hmain : w1.current = some a ∧
      (∃ cxE, getCtx w1 c = some cxE ∧
        cxE.tokenStack = w.current :: cx.tokenStack) := by
    cases hactv : cx.isActive with
    | true =>
      obtain ⟨_, _, hcur1, _, htokc, ⟨cx4, hg4, _⟩, _⟩ :=
        enterCtx_active_ok w c cx hc hactv hb a w1 hEnter
      refine ⟨hcur1, cx4, hg4, ?_⟩
      have : tokenStackOf w1 c = cx4.tokenStack := by
        simp [tokenStackOf, hg4]
      rw [← this]
      exact htokc
    | false =>
      obtain ⟨hac, hcur1, _, ⟨cx2, hg2, _, _, _, _, ht2⟩, _⟩ :=
        enterCtx_inactive_ok w c cx hc hactv a w1 hEnter
      exact ⟨by rw [hcur1, hac], cx2, hg2, ht2⟩
  obtain ⟨hcur1, cxE, hgE, htE⟩ := hmain
  have hexitgen : ∀ wmid cxm am w3, getCtx wmid c = some cxm →
      cxm.tokenStack = w.current :: cx.tokenStack →
      wmid.current = some am →
      exitCtx wmid c = Except.ok w3 →
      w3.current = w.current ∧ tokenStackOf w3 c = cx.tokenStack := by
    intro wmid cxm am w3 hg hstack hcurm hexit
    obtain ⟨h1, h2, _⟩ :=
      exitCtx_ok wmid c am cxm w.current cx.tokenStack hg hstack hcurm w3 hexit
    exact ⟨h1, h2⟩
  refine ⟨hcur1, by simp [tokenStackOf, hgE, htE], hexitgen, ?_⟩
  intro w3 hexit
  exact hexitgen w1 cxE a w3 hgE htE hcur1 hexit

/-- The template world has no context at id 3 or above. -/
theorem templateWorld_idsBounded : IdsBounded templateWorld := by
  intro j hj
  have hj2 : 3 ≤ j := hj
  have hctxs : templateWorld.ctxs =
      [(0, appRootCtx), (1, threadRootCtx), (2, mkCtx PSpec.default)] := rfl
  show lookupA templateWorld.ctxs j = Option.none
  rw [hctxs]
  have h0 : (0 : Nat) ≠ j := by
    intro h
    rw [← h] at hj2
    exact absurd hj2 (by decide)
  have h1 : (1 : Nat) ≠ j := by
    intro h
    rw [← h] at hj2
    exact absurd hj2 (by decide)
  have h2 : (2 : Nat) ≠ j := by
    intro h
    rw [← h] at hj2
    exact absurd hj2 (by decide)
  simp [lookupA, h0, h1, h2]

/-- Witness for C7 at the bootstrap world with a fresh `Default`-parent
context (id 2): entering makes it current with the thread-root recorded as
reset token, and the matching exit restores the thread-root as current
with an empty token stack. -/
theorem C7_enter_exit_lifo_witness :
    enterCtx templateWorld 2 = Except.ok (2, enteredTemplateWorld) ∧
    enteredTemplateWorld.current = some 2 ∧
    tokenStackOf enteredTemplateWorld 2 = templateWorld.current :: [] ∧
    exitCtx enteredTemplateWorld 2 = Except.ok exitedTemplateWorld ∧
    exitedTemplateWorld.current = templateWorld.current ∧
    tokenStackOf exitedTemplateWorld 2 = [] := by
  have h := C7_enter_exit_lifo templateWorld 2 (mkCtx PSpec.default)
    templateWorld_idsBounded rfl 2 enteredTemplateWorld rfl
  have hx := h.2.2.2 exitedTemplateWorld rfl
  exact ⟨rfl, h.1, h.2.1, rfl, hx.1, hx.2⟩

/-- Counterexample to C8: `__enter__` copies only when the context is
already active (src/xinject/context.py, lines 1081-1086), so in the spec's
example scenario — `R = XContext(parent=None); R.add(42, for_type=int);
with R` while `R` is inactive — the activated context `A` is the very same
object as `R` (the same id, 1, comes back), refuting `A is not R`. -/
theorem C8_counterexample :
    isActiveOf exampleWorld 1 = false ∧
    depsLookup exampleWorld 1 0 = some 42 ∧
    enterCtx exampleWorld 1 = Except.ok (1, enteredExampleWorld) :=
  ⟨rfl, rfl, rfl⟩

/-- C8 (amended): entering an inactive context seeded with `v` for type
`t` activates that very context in place — the returned context `A` IS
`R` — `A` is active afterwards, and `A.get(t)` returns the seeded
instance without any further state change. -/
theorem C8_enter_seeded_inactive_root (f : Nat) (w : World) (c : CtxId)
    (cx : Ctx) (t : Ty) (v : Val)
    (hc : getCtx w c = some cx)
    (hinact : cx.isActive = false)
    (hv : lookupA cx.deps t = some v)
    (a : CtxId) (w1 : World)
    (hEnter : enterCtx w c = Except.ok (a, w1)) :
    a = c ∧ isActiveOf w1 a = true ∧
    dependencyFuel (f + 1) w1 a t true = Except.ok (some v, w1) := by
  obtain ⟨hac, hcur, htok, ⟨cx2, hg2, hd2, hch2, hs2, ha2, ht2⟩, _⟩ :=
    enterCtx_inactive_ok w c cx hc hinact a w1 hEnter
  refine ⟨hac, ?_, ?_⟩
  · rw [hac]
    simp [isActiveOf, hg2, ha2]
  · rw [hac]
    exact dependencyFuel_local_hit f w1 c t true cx2 v hg2 (by rw [hd2]; exact hv)

/-- Witness for the amended C8 at the example scenario: `R` (id 1) holds
42 for `int` (type 0), is inactive, entering returns `R` itself as `A`,
and `A.get(int)` yields 42. -/
theorem C8_enter_seeded_inactive_root_witness :
    getCtx exampleWorld 1 = some { mkCtx PSpec.none with deps := [(0, 42)] } ∧
    isActiveOf enteredExampleWorld 1 = true ∧
    dependencyFuel 3 enteredExampleWorld 1 0 true =
      Except.ok (some 42, enteredExampleWorld) := by
  have h := C8_enter_seeded_inactive_root 2 exampleWorld 1
    { mkCtx PSpec.none with deps := [(0, 42)] } 0 42 rfl rfl rfl 1
    enteredExampleWorld rfl
  exact ⟨rfl, h.2.1, h.2.2⟩

/-- A key lookup misses when no pair of the list carries the key. -/
theorem lookupA_none_of_keys {α : Type} (l : List (Nat × α)) (j : Nat)
    (h : ∀ pr ∈ l, pr.1 ≠ j) : lookupA l j = Option.none := by
  induction l with
  | nil => rfl
  | cons hd tl ih =>
    have hne : hd.1 ≠ j := h hd (by simp)
    rw [show (hd :: tl : List (Nat × α)) = (hd.1, hd.2) :: tl from rfl]
    rw [lookupA]
    simp only [hne, reduceIte]
    exact ih (fun pr hpr => h pr (by simp [hpr]))

/-- A world whose context table only holds keys below the allocation
counter satisfies the freshness invariant. -/
theorem idsBounded_of_keys (w : World)
    (hk : ∀ pr ∈ w.ctxs, pr.1 < w.nextId) : IdsBounded w := by
  intro j hj
  show lookupA w.ctxs j = Option.none
  refine lookupA_none_of_keys w.ctxs j (fun pr hpr h => ?_)
  have := hk pr hpr
  rw [h] at this
  exact absurd (Nat.lt_of_lt_of_le this hj) (Nat.lt_irrefl j)

/-- The cache-invalidation walk never changes the current context or any
token stack. -/
theorem removeCachedWalk_frame (f : Nat) :
    ∀ (w : World) (l : List CtxId) (t : Ty) (w2 : World),
    removeCachedWalk f w l t = Except.ok w2 →
    w2.current = w.current ∧ ∀ d, tokenStackOf w2 d = tokenStackOf w d := by
  induction f with
  | zero => intro w l t w2 h; exact absurd h (by simp [removeCachedWalk])
  | succ f ih =>
    intro w l t w2 h
    match l with
    | [] =>
      simp [removeCachedWalk] at h
      subst h
      exact ⟨rfl, fun _ => rfl⟩
    | c :: rest =>
      rw [removeCachedWalk] at h
      set w1 := updCtx w c (fun d => { d with cache := removeA d.cache t }) with hw1
      cases hmid : removeCachedWalk f w1
          (match getCtx w1 c with | some d => d.children | Option.none => []) t with
      | error e => rw [hmid] at h; exact absurd h (by simp)
      | ok wmid =>
        rw [hmid] at h
        simp only at h
        obtain ⟨hc1, ht1⟩ := ih w1 _ t wmid hmid
        obtain ⟨hc2, ht2⟩ := ih wmid rest t w2 h
        have hcw1 : w1.current = w.current := by rw [hw1, updCtx_current]
        have htw1 : ∀ d, tokenStackOf w1 d = tokenStackOf w d := by
          intro d
          rw [hw1]
          exact tokenStackOf_updCtx_preserve w c
            (fun d => { d with cache := removeA d.cache t }) (fun e => rfl) d
        exact ⟨by rw [hc2, hc1, hcw1], fun d => by rw [ht2 d, ht1 d, htw1 d]⟩

/-- `XContext.add` never changes the current context or any token stack. -/
theorem addFuel_frame (f : Nat) :
    ∀ (w : World) (c : CtxId) (v : Val) (t : Ty) (w2 : World),
    addFuel f w c v t = Except.ok w2 →
    w2.current = w.current ∧ ∀ d, tokenStackOf w2 d = tokenStackOf w d := by
  induction f with
  | zero => intro w c v t w2 h; exact absurd h (by simp [addFuel])
  | succ f ih =>
    intro w c v t w2 h
    rw [addFuel] at h
    cases hc : getCtx w c with
    | none => rw [hc] at h; exact absurd h (by simp)
    | some cx =>
      rw [hc] at h
      simp only at h
      set w1 := updCtx w c (fun d => { d with deps := insertA d.deps t v }) with hw1
      have hcw1 : w1.current = w.current := by rw [hw1, updCtx_current]
      have htw1 : ∀ d, tokenStackOf w1 d = tokenStackOf w d := by
        intro d
        rw [hw1]
        exact tokenStackOf_updCtx_preserve w c
          (fun d => { d with deps := insertA d.deps t v }) (fun e => rfl) d
      cases hs : cx.sibling with
      | none =>
        rw [hs] at h
        simp only at h
        obtain ⟨hc2, ht2⟩ := removeCachedWalk_frame f w1 [c] t w2 h
        exact ⟨by rw [hc2, hcw1], fun d => by rw [ht2 d, htw1 d]⟩
      | some s =>
        rw [hs] at h
        simp only at h
        cases hsb : addFuel f w1 s v t with
        | error e => rw [hsb] at h; exact absurd h (by simp)
        | ok wmid =>
          rw [hsb] at h
          simp only at h
          obtain ⟨hcm, htm⟩ := ih w1 s v t wmid hsb
          obtain ⟨hc2, ht2⟩ := removeCachedWalk_frame f wmid [c] t w2 h
          exact ⟨by rw [hc2, hcm, hcw1], fun d => by rw [ht2 d, htm d, htw1 d]⟩

/-- When the target of an `add` carries a `_sibling` link, the very same
binding is also installed on the sibling (`XContext.add` forwards the
call, src/xinject/context.py, lines 777-778). -/
theorem addFuel_sibling_forward (f : Nat) (w : World) (a s : CtxId) (v : Val)
    (t : Ty) (acx : Ctx) (w2 : World)
    (ha : getCtx w a = some acx)
    (hs : acx.sibling = some s)
    (h : addFuel (f + 1) w a v t = Except.ok w2) :
    depsLookup w2 a t = some v ∧ depsLookup w2 s t = some v := by
  rw [addFuel] at h
  rw [ha] at h
  simp only at h
  rw [hs] at h
  simp only at h
  set w1 := updCtx w a (fun d => { d with deps := insertA d.deps t v }) with hw1
  cases hsb : addFuel f w1 s v t with
  | error e => rw [hsb] at h; exact absurd h (by simp)
  | ok wmid =>
    rw [hsb] at h
    simp only at h
    cases hrc : removeCachedWalk f wmid [a] t with
    | error e => rw [hrc] at h; exact absurd h (by simp)
    | ok wr =>
      rw [hrc] at h
      cases h
      obtain ⟨hk1, hm1, hd1, hu1⟩ := insert_dep_shape w a v t acx ha
      obtain ⟨_, _, hds, hu2⟩ := addFuel_shape f w1 s v t wmid hsb
      have hps := removeCachedWalk_popShape f wmid [a] t _ hrc
      constructor
      · rw [hps.deps a t]
        rcases hu2 a with h2 | h2
        · exact h2
        · rw [h2]
          exact hd1
      · rw [hps.deps s t]
        exact hds

/-- When the exited context is itself the current one, a successful
`__exit__` deactivates it: the context is inactive afterwards (and its
parent cache is cleared). -/
theorem exitCtx_deactivates (w : World) (c : CtxId) (cx : Ctx)
    (tok : Option CtxId) (rest : List (Option CtxId))
    (hc : getCtx w c = some cx)
    (hts : cx.tokenStack = tok :: rest)
    (hcur : w.current = some c)
    (w2 : World) (h : exitCtx w c = Except.ok w2) :
    isActiveOf w2 c = false := by
  rw [exitCtx, hc] at h
  simp only at h
  rw [hts] at h
  simp only at h
  set w1 : World := setCtx w c { cx with tokenStack := rest } with hw1
  have hgrab : grab w1 = Except.ok (c, w1) := by
    unfold grab
    rw [show w1.current = some c from hcur]
  rw [hgrab] at h
  simp only at h
  have hg1 : getCtx w1 c = some { cx with tokenStack := rest } := by
    rw [hw1]
    exact getCtx_setCtx_self w c _
  split at h
  next hgu => exact absurd h (by simp)
  next ucx hgu =>
  have hux : ucx = { cx with tokenStack := rest } := by
    rw [hg1] at hgu
    exact (Option.some.inj hgu).symm
  subst hux
  split at h
  next e hsibE => exact absurd h (by simp)
  next dd hsibOk =>
  have hdd : dd = c := by
    simp only at hsibOk
    cases hsib : cx.sibling with
    | none =>
      rw [hsib] at hsibOk
      simp at hsibOk
      exact hsibOk.symm
    | some s =>
      rw [hsib] at hsibOk
      simp only at hsibOk
      by_cases hsc : s = c
      · rw [if_pos hsc] at hsibOk
        exact (Except.ok.inj hsibOk).symm
      · rw [if_neg hsc] at hsibOk
        exact absurd hsibOk (by simp)
  rw [hdd] at h
  split at h
  next hgd => exact absurd h (by simp)
  next dcx hgd =>
  have hdx : dcx = { cx with tokenStack := rest } := by
    rw [hg1] at hgd
    exact (Option.some.inj hgd).symm
  subst hdx
  split at h
  next hne => exact absurd h (by simp)
  next hne =>
  split at h
  next p hpar =>
    split at h
    next hgp => exact absurd h (by simp)
    next pcx hgp =>
    split at h
    next hmem =>
      split at h
      next hgd2 => exact absurd h (by simp)
      next dcx2 hgd2 =>
      split at h
      next hkids =>
        simp only [Except.ok.injEq] at h
        subst h
        have hgd0 := hgd2
        have hact2 : dcx2.isActive = false := by
          rw [getCtx_updCtx_self] at hgd2
          by_cases hpc : p = c
          · subst hpc
            rw [getCtx_setCtx_self] at hgd2
            simp only [Option.map_some'] at hgd2
            rw [← Option.some.inj hgd2]
            rw [getCtx_setCtx_self] at hgp
            show pcx.isActive = false
            rw [← Option.some.inj hgp]
          · rw [getCtx_setCtx_ne _ _ _ _ hpc] at hgd2
            rw [getCtx_setCtx_self] at hgd2
            simp only [Option.map_some'] at hgd2
            rw [← Option.some.inj hgd2]
        simp [isActiveOf, hgd0, hact2]
      next hkids => exact absurd h (by simp)
    next hmem => exact absurd h (by simp)
  next hpar =>
    split at h
    next hkids =>
      simp only [Except.ok.injEq] at h
      subst h
      simp [isActiveOf, getCtx_setCtx_self]
    next hkids => exact absurd h (by simp)

/-- C6: re-entrant activation.  Entering an already active context
activates a fresh shallow copy — a new id, distinct from the original —
that carries the original's local store and a `_sibling` link back to the
original; an `add` performed on the copy is forwarded along the sibling
link, so both the copy and the original map the type to the added
instance; and after the inner scope's matching exit the pre-enter context
is current again and the instance remains visible through the outer
original. -/
theorem C6_reentrant_copy_forwards_adds
    (f : Nat) (w : World) (c : CtxId) (cx : Ctx)
    (hb : IdsBounded w)
    (hc : getCtx w c = some cx)
    (hact : cx.isActive = true)
    (a : CtxId) (w1 : World)
    (hEnter : enterCtx w c = Except.ok (a, w1))
    (v : Val) (t : Ty) (w2 : World)
    (hAdd : addFuel (f + 1) w1 a v t = Except.ok w2)
    (w3 : World)
    (hExit : exitCtx w2 c = Except.ok w3) :
    a = w.nextId ∧ a ≠ c ∧
    (∃ acx, getCtx w1 a = some acx ∧ acx.deps = cx.deps ∧
      acx.sibling = some c ∧ acx.isActive = true) ∧
    depsLookup w2 a t = some v ∧
    depsLookup w2 c t = some v ∧
    w3.current = w.current ∧
    depsLookup w3 c t = some v := by
  obtain ⟨hanid, hanec, hcur1, ⟨acx, hga, hadeps, hacache, hasib, haact, hatok⟩,
      htokc, hcx4, hdframe⟩ :=
    enterCtx_active_ok w c cx hc hact hb a w1 hEnter
  obtain ⟨hda, hdc⟩ := addFuel_sibling_forward f w1 a c v t acx w2 hga hasib hAdd
  obtain ⟨hcur2, htok2⟩ := addFuel_frame (f + 1) w1 a v t w2 hAdd
  have htk : tokenStackOf w2 c = w.current :: cx.tokenStack := by
    rw [htok2 c]
    exact htokc
  cases hgm : getCtx w2 c with
  | none =>
    exfalso
    rw [tokenStackOf, hgm] at htk
    exact absurd htk (by simp)
  | some cxm =>
    have htsm : cxm.tokenStack = w.current :: cx.tokenStack := by
      rw [tokenStackOf, hgm] at htk
      exact htk
    have hcur2a : w2.current = some a := by
      rw [hcur2]
      exact hcur1
    obtain ⟨hc3, hts3, hdeps3⟩ :=
      exitCtx_ok w2 c a cxm w.current cx.tokenStack hgm htsm hcur2a w3 hExit
    refine ⟨hanid, hanec, ⟨acx, hga, hadeps, hasib, haact⟩, hda, hdc, hc3, ?_⟩
    rw [hdeps3 c t]
    exact hdc

/-- Witness for C6 in the re-entrant scenario on the bootstrap worlds:
re-entering the active template context (id 2) activates the copy id 3;
`add`ing instance 5 for type 4 on the copy lands on both the copy and the
original; after the inner exit the original is current again and still
holds the instance. -/
theorem C6_reentrant_copy_forwards_adds_witness :
    enterCtx enteredTemplateWorld 2 = Except.ok (3, reenteredWorld) ∧
    addFuel 5 reenteredWorld 3 5 4 = Except.ok reenterAddWorld ∧
    exitCtx reenterAddWorld 2 = Except.ok reenterExitWorld ∧
    depsLookup reenterAddWorld 3 4 = some 5 ∧
    depsLookup reenterAddWorld 2 4 = some 5 ∧
    reenterExitWorld.current = enteredTemplateWorld.current ∧
    depsLookup reenterExitWorld 2 4 = some 5 := by
  have h := C6_reentrant_copy_forwards_adds 4 enteredTemplateWorld 2
    ((getCtx enteredTemplateWorld 2).getD appRootCtx)
    (idsBounded_of_keys enteredTemplateWorld (by decide)) rfl rfl
    3 reenteredWorld rfl 5 4 reenterAddWorld rfl reenterExitWorld rfl
  exact ⟨rfl, rfl, rfl, h.2.2.2.1, h.2.2.2.2.1, h.2.2.2.2.2.1, h.2.2.2.2.2.2⟩

/-- Counterexample to C9: an instance added to the active scope during one
invocation of a function wrapped with a context is NOT discarded when the
call exits.  On the decoration-time template (id 2, holding nothing for
type 3) one invocation that adds instance 7 for type 3 succeeds; after it
the template — now inactive again — still maps type 3 to 7, and the second
invocation enters the very same template object and sees the instance
added by the first one.  (`XContext.__call__` runs the body under
`with self:`, src/xinject/context.py lines 1173-1203, and `__exit__`,
lines 1095-1136, only deactivates the node, pops the reset token and
clears `_cached_parent_dependencies`; `_dependencies` is kept.) -/
theorem C9_counterexample :
    depsLookup templateWorld 2 3 = Option.none ∧
    invokeAddingDep 9 templateWorld 2 7 3 = Except.ok afterFirstInvocation ∧
    isActiveOf afterFirstInvocation 2 = false ∧
    depsLookup afterFirstInvocation 2 3 = some 7 ∧
    enterCtx afterFirstInvocation 2 = Except.ok (2, secondInvocationWorld) ∧
    dependencyFuel 3 secondInvocationWorld 2 3 true =
      Except.ok (some 7, secondInvocationWorld) :=
  ⟨rfl, rfl, rfl, rfl, rfl, rfl⟩

/-- C9 (amended): the decorator/with form reuses the inactive template
context object itself as the active scope, and `__exit__` does not roll
back the local dependency store: an instance added to the active scope
during one invocation persists on the template after the call exits (the
template is merely deactivated, with the pre-call current context
restored) and is visible to later invocations of the same wrapped
function. -/
theorem C9_decorator_additions_persist
    (f : Nat) (w : World) (c : CtxId) (cx : Ctx) (v : Val) (t : Ty)
    (w4 : World)
    (hc : getCtx w c = some cx)
    (hinact : cx.isActive = false)
    (hInv : invokeAddingDep f w c v t = Except.ok w4) :
    depsLookup w4 c t = some v ∧
    w4.current = w.current ∧
    isActiveOf w4 c = false ∧
    (∀ a w5, enterCtx w4 c = Except.ok (a, w5) →
      ∀ g, dependencyFuel (g + 1) w5 a t true = Except.ok (some v, w5)) := by
  rw [invokeAddingDep] at hInv
  cases hE : enterCtx w c with
  | error e => rw [hE] at hInv; exact absurd hInv (by simp)
  | ok pw =>
    obtain ⟨a0, w1⟩ := pw
    rw [hE] at hInv
    simp only at hInv
    obtain ⟨hac, hcur1, htok1, ⟨cx2, hg2, hd2, hch2, hs2, ha2, ht2⟩,
        hoth, hnid, hnident⟩ :=
      enterCtx_inactive_ok w c cx hc hinact a0 w1 hE
    have hgrab : grab w1 = Except.ok (c, w1) := by
      unfold grab
      rw [hcur1]
    rw [hgrab] at hInv
    simp only at hInv
    cases hA : addFuel f w1 c v t with
    | error e => rw [hA] at hInv; exact absurd hInv (by simp)
    | ok w3 =>
      rw [hA] at hInv
      simp only at hInv
      obtain ⟨hk3, hm3, hd3, hu3⟩ := addFuel_shape f w1 c v t w3 hA
      obtain ⟨hcur3, htok3⟩ := addFuel_frame f w1 c v t w3 hA
      have htkc3 : tokenStackOf w3 c = w.current :: cx.tokenStack := by
        rw [htok3 c]
        exact htok1
      cases hgm : getCtx w3 c with
      | none =>
        exfalso
        rw [tokenStackOf, hgm] at htkc3
        exact absurd htkc3 (by simp)
      | some cxm =>
        have htsm : cxm.tokenStack = w.current :: cx.tokenStack := by
          rw [tokenStackOf, hgm] at htkc3
          exact htkc3
        have hcur3c : w3.current = some c := by
          rw [hcur3]
          exact hcur1
        obtain ⟨hc4, hts4, hdeps4⟩ :=
          exitCtx_ok w3 c c cxm w.current cx.tokenStack hgm htsm hcur3c w4 hInv
        have hdeact := exitCtx_deactivates w3 c cxm w.current cx.tokenStack
          hgm htsm hcur3c w4 hInv
        have hdw4 : depsLookup w4 c t = some v := by
          rw [hdeps4 c t]
          exact hd3
        refine ⟨hdw4, hc4, hdeact, ?_⟩
        intro a2 w5 hE2 g
        cases hg4 : getCtx w4 c with
        | none =>
          exfalso
          have h0 := hdw4
          simp [depsLookup, hg4] at h0
        | some cx4 =>
          have hact4 : cx4.isActive = false := by
            have h0 := hdeact
            simp only [isActiveOf, hg4] at h0
            exact h0
          have hdw4l : lookupA cx4.deps t = some v := by
            have h0 := hdw4
            simp only [depsLookup, hg4] at h0
            exact h0
          obtain ⟨ha2c, hcur5, htok5, ⟨cx5, hg5, hd5, _, _, _, _⟩, _⟩ :=
            enterCtx_inactive_ok w4 c cx4 hg4 hact4 a2 w5 hE2
          have hlk : lookupA cx5.deps t = some v := by
            rw [hd5]
            exact hdw4l
          rw [ha2c]
          exact dependencyFuel_local_hit g w5 c t true cx5 v hg5 hlk

/-- Witness for the amended C9 in the decorator scenario: one invocation
adds 7 for type 3; afterwards the template (id 2) still maps type 3 to 7,
the pre-call current context is restored, the template is inactive, and
the second invocation's scope resolves type 3 to the instance added by
the first. -/
theorem C9_decorator_additions_persist_witness :
    invokeAddingDep 9 templateWorld 2 7 3 = Except.ok afterFirstInvocation ∧
    depsLookup afterFirstInvocation 2 3 = some 7 ∧
    afterFirstInvocation.current = templateWorld.current ∧
    isActiveOf afterFirstInvocation 2 = false ∧
    dependencyFuel 3 secondInvocationWorld 2 3 true =
      Except.ok (some 7, secondInvocationWorld) := by
  have h := C9_decorator_additions_persist 9 templateWorld 2
    (mkCtx PSpec.default) 7 3 afterFirstInvocation rfl rfl rfl
  exact ⟨rfl, h.1, h.2.1, h.2.2.1, h.2.2.2 2 secondInvocationWorld rfl 2⟩

end Xinject
